import Mathlib

/-!
Verification development for `src/pareser.py`, a sequential structure parser
that extracts chapters, tasks and answers from a stream of paragraph strings
taken from one fixed Word-document textbook layout, together with its answer
reconciler `answer_parser`.

The Python module imports a `constants` module (regular-expression patterns
`RE_SUPREME_CHAPTER`, `RE_CHAPTER`, `RE_TASK`, `RE_TASK_ID`, `RE_ANSWER_TEXT`,
`RE_PART_ANSWER` and the `ABSENT` sentinel) that is not part of the sources;
those pattern matchers are modelled from the specification and are marked
`Modelled from the spec:` in their doc comments.  Everything else is a direct
shallow embedding of the code in `src/pareser.py`: fallible operations
(list indexing out of range, `int()` conversion failures, calling methods on
`None`) are modelled with `Except`, and the in-place dictionary update
`tasks_data[i]['answer'] = v` is modelled by `setAnswer`.
-/

namespace Pareser

/-- Modelled from the spec: the `ABSENT` sentinel imported from the missing
`constants` module; it marks "no answer found", distinct from an error. -/
def ABSENT : String := "Отсутствует"

/-- A chapter record, `{'id': ..., 'name': ..., 'parent': ...}`. -/
structure Chapter where
  id : Nat
  name : String
  parent : Nat
deriving DecidableEq, Repr

/-- A task record as built by `get_task_data`.  The `answer` field models the
`'answer'` dictionary key: `none` means the key has not been set, `some v`
means the reconciler (or nobody else) stored the string `v` there. -/
structure Task where
  id_tasks_book : String
  task : String
  answer : Option String
  classes : String
  paragraph : Nat
  topic_id : Nat
  level : Nat
deriving DecidableEq, Repr

/-- The static author record built in `parser`. -/
structure Author where
  name : String
  description : String
  topic_id : Nat
  classes : String
deriving DecidableEq, Repr

/-- A regular-expression match object: the capture groups 1-5, `none` for a
group that did not participate in the match (`match.group(n) is None`). -/
structure Match where
  g1 : Option String
  g2 : Option String
  g3 : Option String
  g4 : Option String
  g5 : Option String
deriving DecidableEq, Repr

/-- The errors the Python code can raise: the explicit
`ValueError(f'index:{index}    {text}')` for an unrecognized paragraph
(carrying the offending index and text), `IndexError` from `data[i]` /
`[-1]` on an empty list, `TypeError`/`AttributeError` from using a missing
match group or `None`, `ValueError` from `int()`, plus fuel exhaustion of
the embedding's bounded loops (never reached with the fuel the wrappers
supply). -/
inductive PErr where
  | unrecognized (index : Nat) (text : String)
  | indexOutOfRange
  | typeError
  | attributeError
  | valueError
  | fuelExhausted
deriving DecidableEq, Repr

/-- Lowercase letter test used by the modelled task pattern for the part
labels `а)`, `б)`, ... (Cyrillic or Latin lowercase). -/
def isLowerLetter (c : Char) : Bool :=
  (0x430 ≤ c.toNat && c.toNat ≤ 0x44F) || c.toNat = 0x451 ||
    (0x61 ≤ c.toNat && c.toNat ≤ 0x7A)

/-- Python's `s[:-1]`: the string without its final character.  Implemented
on the character list so that it reduces inside the kernel. -/
def pyDropLast (s : String) : String := String.mk s.data.dropLast

/-- Python's `str.strip()`: remove leading and trailing whitespace
(kernel-reducible implementation over the character list). -/
def pyStrip (s : String) : String :=
  String.mk (((s.data.dropWhile Char.isWhitespace).reverse.dropWhile
    Char.isWhitespace).reverse)

/-- Decimal digits of a natural number, with fuel (kernel-reducible stand-in
for `Nat.repr`). -/
def natToStringAux : Nat → Nat → List Char
  | 0, _ => []
  | fuel + 1, n =>
    if n < 10 then [Char.ofNat (48 + n)]
    else natToStringAux fuel (n / 10) ++ [Char.ofNat (48 + n % 10)]

/-- Decimal rendering of a natural number, modelling Python's `f'{n}'`. -/
def natToString (n : Nat) : String := String.mk (natToStringAux (n + 1) n)

/-- Python's `int(s)` on a digit string: `none` models the `ValueError` on a
non-numeric string (kernel-reducible stand-in for `String.toNat?`). -/
def digitsToNat? (cs : List Char) : Option Nat :=
  if cs ≠ [] ∧ cs.all (fun c => c.isDigit) then
    some (cs.foldl (fun acc c => acc * 10 + (c.toNat - 48)) 0)
  else none

/-- Modelled from the spec: `RE_SUPREME_CHAPTER` from the missing `constants`
module.  A numbered top-level heading `N. Title`: group 1 is the number with
its trailing dot (the code computes `int(group(1)[:-1])`), group 2 the title
text after the separating space. -/
def supremeChapterMatch (text : String) : Option Match :=
  let ds := text.data.takeWhile (fun c => c.isDigit)
  let rest := text.data.dropWhile (fun c => c.isDigit)
  match ds, rest with
  | _ :: _, '.' :: ' ' :: rest2 =>
    if rest2 = [] then none
    else some ⟨some (String.mk (ds ++ ['.'])), some (String.mk rest2), none, none, none⟩
  | _, _ => none

/-- Modelled from the spec: `RE_CHAPTER` from the missing `constants` module.
A sub-chapter heading `N.M. Title`: groups 1 and 2 are the two numeric
components with their dots, group 3 the title text. -/
def chapterMatch (text : String) : Option Match :=
  let ds1 := text.data.takeWhile (fun c => c.isDigit)
  let r1 := text.data.dropWhile (fun c => c.isDigit)
  match ds1, r1 with
  | _ :: _, '.' :: r2 =>
    let ds2 := r2.takeWhile (fun c => c.isDigit)
    let r3 := r2.dropWhile (fun c => c.isDigit)
    match ds2, r3 with
    | _ :: _, '.' :: ' ' :: rest2 =>
      if rest2 = [] then none
      else
        some ⟨some (String.mk (ds1 ++ ['.'])), some (String.mk (ds2 ++ ['.'])),
          some (String.mk rest2), none, none⟩
    | _, _ => none
  | _, _ => none

/-- Greedy parse of leading `N.` numeric components, with fuel (each step
consumes at least two characters, so `cs.length` fuel is always enough). -/
def numCompsAux : Nat → List Char → List (List Char) × List Char
  | 0, cs => ([], cs)
  | fuel + 1, cs =>
    let ds := cs.takeWhile (fun c => c.isDigit)
    let rest := cs.dropWhile (fun c => c.isDigit)
    match ds, rest with
    | [], _ => ([], cs)
    | _ :: _, '.' :: r =>
      let res := numCompsAux fuel r
      ((ds ++ ['.']) :: res.1, res.2)
    | _ :: _, _ => ([], cs)

/-- Greedy parse of the leading `N.N. ... N.` numeric components of a line. -/
def numComps (cs : List Char) : List (List Char) × List Char :=
  numCompsAux cs.length cs

/-- Modelled from the spec: `RE_TASK` from the missing `constants` module.
Three shapes, mirroring the three group configurations `get_task_data`
branches on: an explicitly numbered task `N.M. ... K. text` or `N. л) text`
(groups 1-3: dotted prefix, final component, text), and an implicit
continuation `л) text` (group 1 absent; groups 4-5: part label and text). -/
def taskMatch (text : String) : Option Match :=
  match text.data with
  | c :: ')' :: ' ' :: rest =>
    if isLowerLetter c && !(rest = []) then
      some ⟨none, none, none, some (String.mk [c, ')']), some (String.mk rest)⟩
    else none
  | cs =>
    let res := numComps cs
    match res.1, res.2 with
    | [], _ => none
    | [c1], ' ' :: l :: ')' :: ' ' :: rest2 =>
      if isLowerLetter l && !(rest2 = []) then
        some ⟨some (String.mk c1), some (String.mk [l, ')']), some (String.mk rest2),
          none, none⟩
      else none
    | c1 :: c2 :: cs2, ' ' :: rest2 =>
      if rest2 = [] then none
      else
        some ⟨some (String.mk ((c1 :: c2 :: cs2).dropLast.flatten)),
          some (String.mk ((c1 :: c2 :: cs2).getLastD [])),
          some (String.mk rest2), none, none⟩
    | _, _ => none

/-- Modelled from Python's Unicode `str.lower()` restricted to the characters
this document can contain: Cyrillic А-Я and Ё map into their lowercase forms,
ASCII letters via `Char.toLower`. -/
def ruLowerChar (c : Char) : Char :=
  if 0x410 ≤ c.toNat && c.toNat ≤ 0x42F then Char.ofNat (c.toNat + 0x20)
  else if c.toNat = 0x401 then Char.ofNat 0x451
  else if 0x41 ≤ c.toNat && c.toNat ≤ 0x5A then Char.ofNat (c.toNat + 0x20)
  else c

/-- Lowercasing of a whole string, modelling `text.lower()`. -/
def ruLower (s : String) : String := String.mk (s.data.map ruLowerChar)

/-- The parsed form of a task's book id under `RE_TASK_ID`. -/
structure TaskId where
  whole : Nat
  sub : Option String
deriving DecidableEq, Repr

/-- Modelled from the spec: `RE_TASK_ID` from the missing `constants` module.
It splits a book id into its whole-number part and an optional sub-part
(`group(1)`/`group(2)` when the sub-part is present, the bare match when it
is not); `none` models the pattern not matching at all (no digits), on which
the reconciler's `.group` call raises. -/
def parseTaskId (s : String) : Option TaskId :=
  let ds := s.data.takeWhile (fun c => c.isDigit)
  let rest := s.data.dropWhile (fun c => c.isDigit)
  if ds = [] then none
  else
    let rest2 := match rest with
      | '.' :: r => r
      | r => r
    some { whole := (digitsToNat? ds).getD 0,
           sub := if rest2 = [] then none else some (String.mk rest2) }

/-- Find the first occurrence of `pat` in a character list; return the end
offset of the occurrence and the suffix after it (models `re.search` plus
`match.end()` for the anchor prefix of the patterns below). -/
def findSuffixAux (pat : List Char) : List Char → Nat → Option (Nat × List Char)
  | [], pos => if pat = [] then some (pos, []) else none
  | c :: cs, pos =>
    if pat.isPrefixOf (c :: cs) then some (pos + pat.length, (c :: cs).drop pat.length)
    else findSuffixAux pat cs (pos + 1)

/-- Embedding of `get_answer_text`: search `answers_text` for the anchor
`f'{task_id}' + RE_ANSWER_TEXT`; `RE_ANSWER_TEXT` is modelled from the spec
as the id's terminating dot, one whitespace, and a capture of the rest of the
line, which the code then strips; `ABSENT` when the anchor is not found. -/
def get_answer_text (task_id : Nat) (text : String) : String :=
  match findSuffixAux (natToString task_id ++ ".").data text.data 0 with
  | some (_, ' ' :: rest) => pyStrip (String.mk (rest.takeWhile (fun c => c != '\n')))
  | _ => ABSENT

/-- Embedding of `get_answer_part`: search the whole-answer span for
`f'{task_part_id}' + RE_PART_ANSWER`; `RE_PART_ANSWER` is modelled from the
spec as the part label's closing `)`, one whitespace, and a capture running
up to the next `;` or end of line.  The code returns
`match.group(1)[:match.end()].strip()`, so the slice by the match's end
offset is reproduced verbatim. -/
def get_answer_part (task_part_id : String) (text : String) : String :=
  match findSuffixAux (task_part_id ++ ")").data text.data 0 with
  | some (pos, ' ' :: rest) =>
    let captured := rest.takeWhile (fun c => c != ';' && c != '\n')
    if captured = [] then ABSENT
    else pyStrip (String.mk (captured.take (pos + 1 + captured.length)))
  | _ => ABSENT

/-- Embedding of lines 121-122 of `get_task_data`: append a trailing dot to
the previous id if it does not already end in one. -/
def withDot (previous : String) : String :=
  if previous.data.getLast? = some '.' then previous else previous ++ "."

/-- Embedding of `get_chapter_data`. -/
def get_chapter_data (id : Nat) (m : Match) (parent : Nat) : Chapter :=
  if parent = 0 then
    { id := id, name := m.g1.getD "" ++ m.g2.getD "", parent := parent }
  else
    { id := id, name := m.g1.getD "" ++ m.g2.getD "" ++ m.g3.getD "", parent := parent }

/-- Embedding of `get_task_data` with its three mutually exclusive cases:
exclusive single-line task (`group(1)[:-1]`), implicit continuation
(`(previous + group(4))[:-1]` after `withDot`), explicit numbering
(`(group(1) + group(2))[:-1]`).  `none` models the `TypeError` /
`AttributeError` Python would raise when a required group (or `previous`)
is `None`. -/
def get_task_data (m : Match) (paragraph : Nat) (previous : Option String)
    (exclusive : Bool) : Option Task :=
  if exclusive then
    match m.g1, m.g2 with
    | some g1, some g2 =>
      some { id_tasks_book := pyDropLast g1, task := g2, answer := none,
             classes := "5;6", paragraph := paragraph, topic_id := 1, level := 1 }
    | _, _ => none
  else
    match m.g1 with
    | none =>
      match previous, m.g4, m.g5 with
      | some p, some g4, some g5 =>
        some { id_tasks_book := pyDropLast (withDot p ++ g4), task := g5, answer := none,
               classes := "5;6", paragraph := paragraph, topic_id := 1, level := 1 }
      | _, _, _ => none
    | some g1 =>
      match m.g2, m.g3 with
      | some g2, some g3 =>
        some { id_tasks_book := pyDropLast (g1 ++ g2), task := g3, answer := none,
               classes := "5;6", paragraph := paragraph, topic_id := 1, level := 1 }
      | _, _ => none

/-- Embedding of the in-place update `tasks_data[i]['answer'] = a` (only ever
used at in-range indices). -/
def setAnswer (tasks : List Task) (i : Nat) (a : String) : List Task :=
  match tasks[i]? with
  | some t => tasks.set i { t with answer := some a }
  | none => tasks

/-- Embedding of the `while` loop of `answer_parser` (lines 179-226): `text`
is the joined answers block, `current` the `current_task_num` high-water
mark, `index` the cursor.  Fuel decreases once per iteration; the wrapper
passes enough fuel for the cursor, which strictly increases, to reach the end
of the list. -/
def answerLoop (text : String) : Nat → Nat → Nat → List Task → Except PErr (List Task)
  | fuel, current, index, tasks =>
    match tasks[index]? with
    | none => .ok tasks
    | some task =>
      match fuel with
      | 0 => .error .fuelExhausted
      | fuel + 1 =>
        match parseTaskId task.id_tasks_book with
        | none => .error .attributeError
        | some tid =>
          match tid.sub with
          | some sub =>
            if current ≤ tid.whole then
              let answer := get_answer_text tid.whole text
              let tasks2 :=
                if answer ≠ ABSENT then setAnswer tasks index (get_answer_part sub answer)
                else setAnswer tasks index answer
              answerLoop text fuel tid.whole (index + 1) tasks2
            else
              answerLoop text fuel current (index + 1) tasks
          | none =>
            match tasks[index + 1]? with
            | none => .error .indexOutOfRange
            | some next =>
              match parseTaskId next.id_tasks_book with
              | none => .error .attributeError
              | some ntid =>
                match ntid.sub with
                | none =>
                  let tasks2 := setAnswer tasks index (get_answer_text tid.whole text)
                  let tasks3 := setAnswer tasks2 (index + 1) (get_answer_text ntid.whole text)
                  answerLoop text fuel ntid.whole (index + 2) tasks3
                | some nsub =>
                  if tid.whole < ntid.whole then
                    let tasks2 := setAnswer tasks index (get_answer_text tid.whole text)
                    let next_answer := get_answer_text ntid.whole text
                    let tasks3 :=
                      if next_answer ≠ ABSENT then
                        setAnswer tasks2 (index + 1) (get_answer_part nsub next_answer)
                      else setAnswer tasks2 (index + 1) next_answer
                    answerLoop text fuel ntid.whole (index + 2) tasks3
                  else if ntid.whole = tid.whole then
                    let tasks2 := setAnswer tasks index ABSENT
                    let next_answer := get_answer_text tid.whole text
                    let tasks3 :=
                      if next_answer ≠ ABSENT then
                        setAnswer tasks2 (index + 1) (get_answer_part nsub next_answer)
                      else tasks2
                    answerLoop text fuel tid.whole (index + 1) tasks3
                  else
                    answerLoop text fuel tid.whole (index + 1) tasks

/-- Embedding of `answer_parser`: join the answer paragraphs with newlines
and run the reconciliation loop from cursor 0 with high-water mark 0. -/
def answerParser (data : List String) (tasks : List Task) : Except PErr (List Task) :=
  answerLoop (String.intercalate "\n" data) tasks.length 0 0 tasks

/-- Embedding of `find_next_task`: recursively consume immediately following
task-pattern paragraphs (stopping at a supreme-chapter line), appending a
record for each, with the `previous_id` argument passed unchanged through
the whole run.  `data[next_index]` raising `IndexError` past the end of the
stream is modelled by `.error .indexOutOfRange`. -/
def find_next_task (data : List String) :
    Nat → List Task → Nat → Option String → Nat → Except PErr (List Task × Nat)
  | fuel, tasks, next_index, previous_id, paragraph =>
    match data[next_index]? with
    | none => .error .indexOutOfRange
    | some text =>
      match fuel with
      | 0 => .error .fuelExhausted
      | fuel + 1 =>
        match taskMatch text with
        | none => .ok (tasks, next_index)
        | some m =>
          if (supremeChapterMatch text).isSome then .ok (tasks, next_index)
          else
            match get_task_data m paragraph previous_id false with
            | none => .error .typeError
            | some t =>
              find_next_task data fuel (tasks ++ [t]) (next_index + 1) previous_id paragraph

/-- Embedding of `find_next_chapter` is inlined in the parser loop below;
this is the answer-collection inner `while` of `parser` (lines 354-359):
append every paragraph verbatim until a paragraph whose lowercased, stripped
text is `оглавление` or the end of the stream. -/
def collectAnswers (data : List String) : Nat → Nat → List String
  | fuel, i =>
    match data[i]? with
    | none => []
    | some text =>
      match fuel with
      | 0 => []
      | fuel + 1 =>
        if pyStrip (ruLower text) = "оглавление" then []
        else text :: collectAnswers data fuel (i + 1)

/-- The running state of the main parse loop: the three growing collections
and the integer counters `current_chapter`, `supreme_chapter_id`,
`current_id` local to one parse invocation. -/
structure PState where
  chapters : List Chapter
  tasks : List Task
  answers : List String
  current_chapter : Nat
  supreme_id : Nat
  current_id : Nat
deriving DecidableEq, Repr

/-- The initial parse state of `parser`. -/
def initState : PState :=
  { chapters := [], tasks := [], answers := [], current_chapter := 0,
    supreme_id := 0, current_id := 1 }

/-- Embedding of the main `while` loop of `parser` (lines 273-362), one fuel
unit per iteration (the cursor strictly increases, so `data.length` fuel is
always enough).  Branches, in the source's priority order: supreme-chapter
pattern (with the next-chapter look-ahead, the sub-chapter retry, and the
exclusive-task fallback), sub-chapter pattern, task pattern (with the
`find_next_task` continuation run), the literal answers-section boundary,
and the fatal `ValueError` for anything else. -/
def parserLoop (data : List String) : Nat → Nat → PState → Except PErr PState
  | fuel, index, st =>
    match data[index]? with
    | none => .ok st
    | some text =>
      match fuel with
      | 0 => .error .fuelExhausted
      | fuel + 1 =>
        match supremeChapterMatch text with
        | some sm =>
          match digitsToNat? ((sm.g1.getD "").data.dropLast) with
          | none => .error .valueError
          | some num =>
            if num = st.current_chapter + 1 ∧ taskMatch text = none then
              match data[index + 1]? with
              | none => .error .indexOutOfRange
              | some text2 =>
                match chapterMatch text2 with
                | some cm =>
                  parserLoop data fuel (index + 2)
                    { st with
                      chapters := st.chapters ++
                        [get_chapter_data st.current_id sm 0,
                         get_chapter_data (st.current_id + 1) cm st.current_id],
                      supreme_id := st.current_id,
                      current_id := st.current_id + 2,
                      current_chapter := num }
                | none =>
                  parserLoop data fuel (index + 1)
                    { st with
                      chapters := st.chapters ++ [get_chapter_data st.current_id sm 0],
                      supreme_id := st.current_id,
                      current_id := st.current_id + 1,
                      current_chapter := num }
            else
              match chapterMatch text with
              | some cm =>
                parserLoop data fuel (index + 1)
                  { st with
                    chapters := st.chapters ++
                      [get_chapter_data st.current_id cm st.supreme_id],
                    current_id := st.current_id + 1 }
              | none =>
                match st.chapters.getLast? with
                | none => .error .indexOutOfRange
                | some lastCh =>
                  match taskMatch text with
                  | some tm =>
                    match
                      (if tm.g4.isSome then
                        match st.tasks.getLast? with
                        | none => Except.error PErr.indexOutOfRange
                        | some lt => Except.ok (some lt.id_tasks_book)
                      else Except.ok tm.g1) with
                    | .error e => .error e
                    | .ok previous_id =>
                      match get_task_data tm lastCh.id previous_id false with
                      | none => .error .typeError
                      | some t =>
                        match find_next_task data data.length (st.tasks ++ [t])
                            (index + 1) tm.g1 lastCh.id with
                        | .error e => .error e
                        | .ok (ts2, newIndex) =>
                          parserLoop data fuel newIndex { st with tasks := ts2 }
                  | none =>
                    match get_task_data sm lastCh.id none true with
                    | none => .error .typeError
                    | some t =>
                      parserLoop data fuel (index + 1) { st with tasks := st.tasks ++ [t] }
        | none =>
          match chapterMatch text with
          | some cm =>
            parserLoop data fuel (index + 1)
              { st with
                chapters := st.chapters ++
                  [get_chapter_data st.current_id cm st.supreme_id],
                current_id := st.current_id + 1 }
          | none =>
            match taskMatch text with
            | some tm =>
              match
                (if tm.g4.isSome then
                  match st.tasks.getLast? with
                  | none => Except.error PErr.indexOutOfRange
                  | some lt => Except.ok (some lt.id_tasks_book)
                else Except.ok tm.g1) with
              | .error e => .error e
              | .ok previous_id =>
                match st.chapters.getLast? with
                | none => .error .indexOutOfRange
                | some lastCh =>
                  match get_task_data tm lastCh.id previous_id false with
                  | none => .error .typeError
                  | some t =>
                    match find_next_task data data.length (st.tasks ++ [t])
                      (index + 1) previous_id lastCh.id with
                    | .error e => .error e
                    | .ok (ts2, newIndex) =>
                      parserLoop data fuel newIndex { st with tasks := ts2 }
            | none =>
              if text = "Ответы и советы" then
                .ok { st with
                  answers := st.answers ++ collectAnswers data data.length (index + 1) }
              else .error (.unrecognized index text)

/-- The static single-entry author metadata list of `parser`. -/
def authors_data : List Author :=
  [{ name := "Текстовые задачи по математике. 5–6 классы / " ++
       "А. В. Шевкин. — 3-е изд., перераб. — М. : " ++
       "Илекса, 2024. — 160 с. : ил.",
     description := "Сборник включает текстовые задачи по разделам " ++
       "школьной математики: натуральные числа, дроби, пропорции, " ++
       "проценты, уравнения. Ко многим задачам даны ответы или советы с " ++
       "чего начать решения. Решения некоторых задач приведены в качестве " ++
       "образцов в основном тексте книги или в разделе " ++
       "«Ответы, советы, решения». " ++
       "Материалы сборника можно использовать как " ++
       "дополнение к любому действующему " ++
       "учебнику. При подготовке этого издания добавлены новые " ++
       "задачи и решения некоторых " ++
       "задач. Пособие предназначено для учащихся 5–6 классов " ++
       "общеобразовательных школ, учителей, " ++
       "студентов педагогических вузов.",
     topic_id := 1,
     classes := "5;6" }]

/-- Embedding of `parser` on an already-extracted paragraph list: run the
main loop from cursor 0 on the initial state, then, when an answers block
was collected, reconcile it into the task list with `answer_parser`. -/
def parser (data : List String) :
    Except PErr (List Task × List Chapter × List Author) :=
  match parserLoop data data.length 0 initState with
  | .error e => .error e
  | .ok st =>
    if st.answers = [] then .ok (st.tasks, st.chapters, authors_data)
    else
      match answerParser st.answers st.tasks with
      | .error e => .error e
      | .ok ts => .ok (ts, st.chapters, authors_data)

/-- A task record with a given book id and all the other fields at the
defaults `get_task_data` uses; used to build concrete task lists. -/
def mkTask (id : String) : Task :=
  { id_tasks_book := id, task := "", answer := none, classes := "5;6",
    paragraph := 1, topic_id := 1, level := 1 }

/-- Forget the `answer` field of a task (give it the "key not set" value);
two tasks with the same `stripAnswer` image differ at most in their answer. -/
def stripAnswer (t : Task) : Task := { t with answer := none }

/-- Every task of the list has been given an answer value (its `'answer'`
key has been set, be it to an extracted string or to `ABSENT`). -/
def AllAnswered (ts : List Task) : Prop := ∀ t ∈ ts, t.answer.isSome

/-- The whole-number component of a task's book id under `RE_TASK_ID`
(0 when the id pattern does not match at all). -/
def taskWhole (t : Task) : Nat :=
  match parseTaskId t.id_tasks_book with
  | some tid => tid.whole
  | none => 0

/-- The whole-number components of the task list are non-decreasing in list
order. -/
def WholesMono (ts : List Task) : Prop :=
  List.Chain' (fun a b => a ≤ b) (ts.map taskWhole)

/-- The chapter-collection invariant of the spec: ids are assigned
monotonically increasing from 1 in discovery order, and every `parent` is
either 0 or the id of a chapter emitted strictly earlier in the list. -/
def ChaptersWellFormed (chs : List Chapter) : Prop :=
  (∀ k, (h : k < chs.length) → (chs[k]).id = k + 1) ∧
  (∀ k, (h : k < chs.length) → (chs[k]).parent = 0 ∨
    ∃ j, ∃ hj : j < chs.length, j < k ∧ (chs[j]).id = (chs[k]).parent)

/-- Every task's `chapter_id` (the `paragraph` field) references one of the
emitted chapters. -/
def TasksLinked (ts : List Task) (chs : List Chapter) : Prop :=
  ∀ t ∈ ts, ∃ c ∈ chs, c.id = t.paragraph

/-- The answer-collection boundary test of lines 356-357:
`text.lower().strip() == 'оглавление'`. -/
def isBoundary (t : String) : Bool := pyStrip (ruLower t) == "оглавление"

/-- The internal invariant of the main parse loop: `current_id` is one past
the number of emitted chapters, `supreme_chapter_id` is 0 or an already
emitted chapter's id, the k-th emitted chapter has id `k + 1` and a parent
among the earlier ids (or 0), and every task's chapter reference points at
an emitted chapter. -/
def StInv (st : PState) : Prop :=
  st.current_id = st.chapters.length + 1 ∧
  st.supreme_id ≤ st.chapters.length ∧
  (∀ k c, st.chapters[k]? = some c → c.id = k + 1 ∧ c.parent ≤ k) ∧
  (∀ t ∈ st.tasks, 1 ≤ t.paragraph ∧ t.paragraph ≤ st.chapters.length)

/-! ### Helper lemmas -/

theorem list_set_self {α : Type} (l : List α) (i : Nat) (x : α)
    (h : l[i]? = some x) : l.set i x = l := by
  apply List.ext_getElem?
  intro n
  rcases eq_or_ne n i with rfl | hne
  · obtain ⟨hlt, hx⟩ := List.getElem?_eq_some.mp h
    rw [List.getElem?_set_self hlt]
    exact h.symm
  · rw [List.getElem?_set_ne (Ne.symm hne)]

theorem setAnswer_length (ts : List Task) (i : Nat) (a : String) :
    (setAnswer ts i a).length = ts.length := by
  unfold setAnswer
  split <;> simp

theorem setAnswer_getElem_ne (ts : List Task) (i j : Nat) (a : String)
    (hij : j ≠ i) : (setAnswer ts i a)[j]? = ts[j]? := by
  unfold setAnswer
  split
  · rw [List.getElem?_set_ne (Ne.symm hij)]
  · rfl

theorem setAnswer_getElem_eq (ts : List Task) (i : Nat) (a : String) (t : Task)
    (h : ts[i]? = some t) :
    (setAnswer ts i a)[i]? = some { t with answer := some a } := by
  unfold setAnswer
  rw [h]
  obtain ⟨hlt, _⟩ := List.getElem?_eq_some.mp h
  rw [List.getElem?_set_self hlt]

theorem setAnswer_map_strip (ts : List Task) (i : Nat) (a : String) :
    (setAnswer ts i a).map stripAnswer = ts.map stripAnswer := by
  unfold setAnswer
  split
  · next t h =>
    rw [List.map_set]
    apply list_set_self
    rw [List.getElem?_map, h]
    rfl
  · rfl

theorem answerLoop_untouched (text : String) :
    ∀ (fuel current index : Nat) (tasks r : List Task),
      answerLoop text fuel current index tasks = .ok r →
      ∀ j, j < index → r[j]? = tasks[j]? := by
  intro fuel current index tasks
  induction fuel, current, index, tasks using answerLoop.induct text with
  | case1 fuel current index tasks h1 =>
    intro r h j hj
    rw [answerLoop] at h
    simp only [h1] at h
    cases h
    rfl
  | case2 current index tasks task h1 =>
    intro r h j hj
    rw [answerLoop] at h
    simp only [h1] at h
    cases h
  | case3 current index tasks task h1 fuel hp =>
    intro r h j hj
    rw [answerLoop] at h
    simp only [h1, hp] at h
    exact Except.noConfusion h
  | case4 current index tasks task h1 fuel tid hp sub hsub hle answer tasks2 ih =>
    intro r h j hj
    rw [answerLoop] at h
    simp only [h1, hp, hsub, if_pos hle] at h
    have := ih r h j (Nat.lt_succ_of_lt hj)
    rw [this]
    show tasks2[j]? = tasks[j]?
    unfold_let tasks2
    split <;> exact setAnswer_getElem_ne _ _ _ _ (Nat.ne_of_lt hj)
  | case5 current index tasks task h1 fuel tid hp sub hsub hle ih =>
    intro r h j hj
    rw [answerLoop] at h
    simp only [h1, hp, hsub, if_neg hle] at h
    exact ih r h j (Nat.lt_succ_of_lt hj)
  | case6 current index tasks task h1 fuel tid hp hsub h2 =>
    intro r h j hj
    rw [answerLoop] at h
    simp only [h1, hp, hsub, h2] at h
    exact Except.noConfusion h
  | case7 current index tasks task h1 fuel tid hp hsub next h2 hnp =>
    intro r h j hj
    rw [answerLoop] at h
    simp only [h1, hp, hsub, h2, hnp] at h
    exact Except.noConfusion h
  | case8 current index tasks task h1 fuel tid hp hsub next h2 ntid hnp hnsub tasks2 tasks3 ih =>
    intro r h j hj
    rw [answerLoop] at h
    simp only [h1, hp, hsub, h2, hnp, hnsub] at h
    have := ih r h j (by omega)
    rw [this]
    show tasks3[j]? = tasks[j]?
    unfold_let tasks3 tasks2
    rw [setAnswer_getElem_ne _ _ _ _ (by omega), setAnswer_getElem_ne _ _ _ _ (by omega)]
  | case9 current index tasks task h1 fuel tid hp hsub next h2 ntid hnp nsub hnsub hlt tasks2 next_answer tasks3 ih =>
    intro r h j hj
    rw [answerLoop] at h
    simp only [h1, hp, hsub, h2, hnp, hnsub, if_pos hlt] at h
    have := ih r h j (by omega)
    rw [this]
    show tasks3[j]? = tasks[j]?
    unfold_let tasks3 tasks2
    split <;>
      rw [setAnswer_getElem_ne _ _ _ _ (by omega), setAnswer_getElem_ne _ _ _ _ (by omega)]
  | case10 current index tasks task h1 fuel tid hp hsub next h2 ntid hnp nsub hnsub hlt heq tasks2 next_answer tasks3 ih =>
    intro r h j hj
    rw [answerLoop] at h
    simp only [h1, hp, hsub, h2, hnp, hnsub, if_neg hlt, if_pos heq] at h
    have := ih r h j (by omega)
    rw [this]
    show tasks3[j]? = tasks[j]?
    unfold_let tasks3 tasks2
    split
    · rw [setAnswer_getElem_ne _ _ _ _ (by omega), setAnswer_getElem_ne _ _ _ _ (by omega)]
    · rw [setAnswer_getElem_ne _ _ _ _ (by omega)]
  | case11 current index tasks task h1 fuel tid hp hsub next h2 ntid hnp nsub hnsub hlt hne ih =>
    intro r h j hj
    rw [answerLoop] at h
    simp only [h1, hp, hsub, h2, hnp, hnsub, if_neg hlt, if_neg hne] at h
    exact ih r h j (by omega)

theorem answerLoop_strip (text : String) :
    ∀ (fuel current index : Nat) (tasks r : List Task),
      answerLoop text fuel current index tasks = .ok r →
      r.map stripAnswer = tasks.map stripAnswer := by
  intro fuel current index tasks
  induction fuel, current, index, tasks using answerLoop.induct text with
  | case1 fuel current index tasks h1 =>
    intro r h
    rw [answerLoop] at h
    simp only [h1] at h
    cases h
    rfl
  | case2 current index tasks task h1 =>
    intro r h
    rw [answerLoop] at h
    simp only [h1] at h
    cases h
  | case3 current index tasks task h1 fuel hp =>
    intro r h
    rw [answerLoop] at h
    simp only [h1, hp] at h
    exact Except.noConfusion h
  | case4 current index tasks task h1 fuel tid hp sub hsub hle answer tasks2 ih =>
    intro r h
    rw [answerLoop] at h
    simp only [h1, hp, hsub, if_pos hle] at h
    rw [ih r h]
    show tasks2.map stripAnswer = tasks.map stripAnswer
    unfold_let tasks2
    split <;> exact setAnswer_map_strip _ _ _
  | case5 current index tasks task h1 fuel tid hp sub hsub hle ih =>
    intro r h
    rw [answerLoop] at h
    simp only [h1, hp, hsub, if_neg hle] at h
    exact ih r h
  | case6 current index tasks task h1 fuel tid hp hsub h2 =>
    intro r h
    rw [answerLoop] at h
    simp only [h1, hp, hsub, h2] at h
    exact Except.noConfusion h
  | case7 current index tasks task h1 fuel tid hp hsub next h2 hnp =>
    intro r h
    rw [answerLoop] at h
    simp only [h1, hp, hsub, h2, hnp] at h
    exact Except.noConfusion h
  | case8 current index tasks task h1 fuel tid hp hsub next h2 ntid hnp hnsub tasks2 tasks3 ih =>
    intro r h
    rw [answerLoop] at h
    simp only [h1, hp, hsub, h2, hnp, hnsub] at h
    rw [ih r h]
    show tasks3.map stripAnswer = tasks.map stripAnswer
    unfold_let tasks3 tasks2
    rw [setAnswer_map_strip, setAnswer_map_strip]
  | case9 current index tasks task h1 fuel tid hp hsub next h2 ntid hnp nsub hnsub hlt tasks2 next_answer tasks3 ih =>
    intro r h
    rw [answerLoop] at h
    simp only [h1, hp, hsub, h2, hnp, hnsub, if_pos hlt] at h
    rw [ih r h]
    show tasks3.map stripAnswer = tasks.map stripAnswer
    unfold_let tasks3 tasks2
    split <;> rw [setAnswer_map_strip, setAnswer_map_strip]
  | case10 current index tasks task h1 fuel tid hp hsub next h2 ntid hnp nsub hnsub hlt heq tasks2 next_answer tasks3 ih =>
    intro r h
    rw [answerLoop] at h
    simp only [h1, hp, hsub, h2, hnp, hnsub, if_neg hlt, if_pos heq] at h
    rw [ih r h]
    show tasks3.map stripAnswer = tasks.map stripAnswer
    unfold_let tasks3 tasks2
    split
    · rw [setAnswer_map_strip, setAnswer_map_strip]
    · rw [setAnswer_map_strip]
  | case11 current index tasks task h1 fuel tid hp hsub next h2 ntid hnp nsub hnsub hlt hne ih =>
    intro r h
    rw [answerLoop] at h
    simp only [h1, hp, hsub, h2, hnp, hnsub, if_neg hlt, if_neg hne] at h
    exact ih r h

theorem answerLoop_length (text : String) (fuel current index : Nat)
    (tasks r : List Task) (h : answerLoop text fuel current index tasks = .ok r) :
    r.length = tasks.length := by
  have := answerLoop_strip text fuel current index tasks r h
  have h2 := congrArg List.length this
  simpa using h2

theorem answerLoop_id_eq (text : String) (fuel current index : Nat)
    (tasks r : List Task) (h : answerLoop text fuel current index tasks = .ok r)
    (j : Nat) :
    r[j]?.map (fun t => t.id_tasks_book) = tasks[j]?.map (fun t => t.id_tasks_book) := by
  have := answerLoop_strip text fuel current index tasks r h
  have h2 := congrArg (fun l => l[j]?) this
  simp only [List.getElem?_map] at h2
  have h3 := congrArg (Option.map (fun t => t.id_tasks_book)) h2
  simpa [Option.map_map, stripAnswer, Function.comp] using h3

theorem taskWhole_eq (t : Task) (tid : TaskId)
    (h : parseTaskId t.id_tasks_book = some tid) : taskWhole t = tid.whole := by
  unfold taskWhole
  rw [h]

theorem setAnswer_map_whole (ts : List Task) (i : Nat) (a : String) :
    (setAnswer ts i a).map taskWhole = ts.map taskWhole := by
  unfold setAnswer
  split
  · next t h =>
    rw [List.map_set]
    apply list_set_self
    rw [List.getElem?_map, h]
    rfl
  · rfl

theorem mono_transfer {ts ts' : List Task}
    (hmap : ts'.map taskWhole = ts.map taskWhole)
    (hm : ∀ j t u, ts[j]? = some t → ts[j + 1]? = some u → taskWhole t ≤ taskWhole u) :
    ∀ j t u, ts'[j]? = some t → ts'[j + 1]? = some u → taskWhole t ≤ taskWhole u := by
  intro j t u ht hu
  have h1 : (ts'.map taskWhole)[j]? = some (taskWhole t) := by
    rw [List.getElem?_map, ht]
    rfl
  have h2 : (ts'.map taskWhole)[j + 1]? = some (taskWhole u) := by
    rw [List.getElem?_map, hu]
    rfl
  rw [hmap, List.getElem?_map] at h1 h2
  cases h3 : ts[j]? with
  | none => rw [h3] at h1; cases h1
  | some t0 =>
    cases h4 : ts[j + 1]? with
    | none => rw [h4] at h2; cases h2
    | some u0 =>
      rw [h3] at h1
      rw [h4] at h2
      have h1h : taskWhole t0 = taskWhole t := by simpa using h1
      have h2h : taskWhole u0 = taskWhole u := by simpa using h2
      rw [← h1h, ← h2h]
      exact hm j t0 u0 h3 h4

theorem answerLoop_allAnswered (text : String) :
    ∀ (fuel current index : Nat) (tasks r : List Task),
      (∀ j t u, tasks[j]? = some t → tasks[j + 1]? = some u → taskWhole t ≤ taskWhole u) →
      (∀ t, tasks[index]? = some t → current ≤ taskWhole t) →
      answerLoop text fuel current index tasks = .ok r →
      ∀ j t, index ≤ j → r[j]? = some t → t.answer.isSome := by
  intro fuel current index tasks
  induction fuel, current, index, tasks using answerLoop.induct text with
  | case1 fuel current index tasks h1 =>
    intro r hmono hcur h j t hj ht
    rw [answerLoop] at h
    simp only [h1] at h
    cases h
    have hlen : tasks.length ≤ index := by
      by_contra hc
      rw [List.getElem?_eq_getElem (by omega)] at h1
      cases h1
    rw [List.getElem?_eq_none (by omega)] at ht
    cases ht
  | case2 current index tasks task h1 =>
    intro r hmono hcur h
    rw [answerLoop] at h
    simp only [h1] at h
    cases h
  | case3 current index tasks task h1 fuel hp =>
    intro r hmono hcur h
    rw [answerLoop] at h
    simp only [h1, hp] at h
    exact Except.noConfusion h
  | case4 current index tasks task h1 fuel tid hp sub hsub hle answer tasks2 ih =>
    intro r hmono hcur h j t hj ht
    rw [answerLoop] at h
    simp only [h1, hp, hsub, if_pos hle] at h
    have hmap : tasks2.map taskWhole = tasks.map taskWhole := by
      unfold_let tasks2
      split <;> exact setAnswer_map_whole _ _ _
    have hmono2 := mono_transfer hmap hmono
    have hcur2 : ∀ t, tasks2[index + 1]? = some t → tid.whole ≤ taskWhole t := by
      intro u hu
      have hu2 : tasks[index + 1]? = some u := by
        rw [← hu]
        unfold_let tasks2
        split <;> exact (setAnswer_getElem_ne _ _ _ _ (by omega)).symm
      have := hmono index task u h1 hu2
      rw [taskWhole_eq task tid hp] at this
      exact this
    rcases Nat.eq_or_lt_of_le hj with hje | hjj
    · rw [← hje] at ht
      have hu := answerLoop_untouched text fuel tid.whole (index + 1) tasks2 r h index (by omega)
      rw [hu] at ht
      unfold_let tasks2 at ht
      split at ht <;>
      · rw [setAnswer_getElem_eq tasks index _ task h1] at ht
        cases ht
        rfl
    · exact ih r hmono2 hcur2 h j t (by omega) ht
  | case5 current index tasks task h1 fuel tid hp sub hsub hle ih =>
    intro r hmono hcur h j t hj ht
    exact absurd (by rw [← taskWhole_eq task tid hp]; exact hcur task h1) hle
  | case6 current index tasks task h1 fuel tid hp hsub h2 =>
    intro r hmono hcur h
    rw [answerLoop] at h
    simp only [h1, hp, hsub, h2] at h
    exact Except.noConfusion h
  | case7 current index tasks task h1 fuel tid hp hsub next h2 hnp =>
    intro r hmono hcur h
    rw [answerLoop] at h
    simp only [h1, hp, hsub, h2, hnp] at h
    exact Except.noConfusion h
  | case8 current index tasks task h1 fuel tid hp hsub next h2 ntid hnp hnsub tasks2 tasks3 ih =>
    intro r hmono hcur h j t hj ht
    rw [answerLoop] at h
    simp only [h1, hp, hsub, h2, hnp, hnsub] at h
    have hmap : tasks3.map taskWhole = tasks.map taskWhole := by
      unfold_let tasks3 tasks2
      rw [setAnswer_map_whole, setAnswer_map_whole]
    have hmono2 := mono_transfer hmap hmono
    have hcur2 : ∀ t, tasks3[index + 2]? = some t → ntid.whole ≤ taskWhole t := by
      intro u hu
      have hu2 : tasks[index + 2]? = some u := by
        rw [← hu]
        unfold_let tasks3 tasks2
        rw [setAnswer_getElem_ne _ _ _ _ (by omega), setAnswer_getElem_ne _ _ _ _ (by omega)]
      have := hmono (index + 1) next u h2 hu2
      rw [taskWhole_eq next ntid hnp] at this
      exact this
    rcases Nat.lt_or_ge j (index + 2) with hjlt | hjge
    · have hu := answerLoop_untouched text fuel ntid.whole (index + 2) tasks3 r h j hjlt
      rw [hu] at ht
      rcases Nat.eq_or_lt_of_le hj with hje | hjj
      · rw [← hje] at ht
        unfold_let tasks3 tasks2 at ht
        rw [setAnswer_getElem_ne _ _ _ _ (by omega),
          setAnswer_getElem_eq tasks index _ task h1] at ht
        cases ht
        rfl
      · have hje : j = index + 1 := by omega
        subst hje
        unfold_let tasks3 tasks2 at ht
        rw [setAnswer_getElem_eq _ _ _ next (by
          rw [setAnswer_getElem_ne _ _ _ _ (by omega)]
          exact h2)] at ht
        cases ht
        rfl
    · exact ih r hmono2 hcur2 h j t hjge ht
  | case9 current index tasks task h1 fuel tid hp hsub next h2 ntid hnp nsub hnsub hlt tasks2 next_answer tasks3 ih =>
    intro r hmono hcur h j t hj ht
    rw [answerLoop] at h
    simp only [h1, hp, hsub, h2, hnp, hnsub, if_pos hlt] at h
    have hmap : tasks3.map taskWhole = tasks.map taskWhole := by
      unfold_let tasks3 tasks2
      split <;> rw [setAnswer_map_whole, setAnswer_map_whole]
    have hmono2 := mono_transfer hmap hmono
    have hcur2 : ∀ t, tasks3[index + 2]? = some t → ntid.whole ≤ taskWhole t := by
      intro u hu
      have hu2 : tasks[index + 2]? = some u := by
        rw [← hu]
        unfold_let tasks3 tasks2
        split <;>
          rw [setAnswer_getElem_ne _ _ _ _ (by omega), setAnswer_getElem_ne _ _ _ _ (by omega)]
      have := hmono (index + 1) next u h2 hu2
      rw [taskWhole_eq next ntid hnp] at this
      exact this
    rcases Nat.lt_or_ge j (index + 2) with hjlt | hjge
    · have hu := answerLoop_untouched text fuel ntid.whole (index + 2) tasks3 r h j hjlt
      rw [hu] at ht
      rcases Nat.eq_or_lt_of_le hj with hje | hjj
      · rw [← hje] at ht
        unfold_let tasks3 tasks2 at ht
        split at ht <;>
        · rw [setAnswer_getElem_ne _ _ _ _ (by omega),
            setAnswer_getElem_eq tasks index _ task h1] at ht
          cases ht
          rfl
      · have hje : j = index + 1 := by omega
        subst hje
        unfold_let tasks3 at ht
        split at ht <;>
        · rw [setAnswer_getElem_eq _ _ _ next (by
            unfold_let tasks2
            rw [setAnswer_getElem_ne _ _ _ _ (by omega)]
            exact h2)] at ht
          cases ht
          rfl
    · exact ih r hmono2 hcur2 h j t hjge ht
  | case10 current index tasks task h1 fuel tid hp hsub next h2 ntid hnp nsub hnsub hlt heq tasks2 next_answer tasks3 ih =>
    intro r hmono hcur h j t hj ht
    rw [answerLoop] at h
    simp only [h1, hp, hsub, h2, hnp, hnsub, if_neg hlt, if_pos heq] at h
    have hmap : tasks3.map taskWhole = tasks.map taskWhole := by
      unfold_let tasks3 tasks2
      split
      · rw [setAnswer_map_whole, setAnswer_map_whole]
      · rw [setAnswer_map_whole]
    have hmono2 := mono_transfer hmap hmono
    have hcur2 : ∀ t, tasks3[index + 1]? = some t → tid.whole ≤ taskWhole t := by
      intro u hu
      have hnext : tasks3[index + 1]? = some { next with answer := some (get_answer_part nsub next_answer) } ∨
          tasks3[index + 1]? = tasks[index + 1]? := by
        unfold_let tasks3 tasks2
        split
        · left
          exact setAnswer_getElem_eq _ _ _ next (by
            rw [setAnswer_getElem_ne _ _ _ _ (by omega)]
            exact h2)
        · right
          rw [setAnswer_getElem_ne _ _ _ _ (by omega)]
      rcases hnext with hn | hn
      · rw [hn] at hu
        cases hu
        show tid.whole ≤ taskWhole { next with answer := some (get_answer_part nsub next_answer) }
        have : taskWhole { next with answer := some (get_answer_part nsub next_answer) } = taskWhole next := rfl
        rw [this, taskWhole_eq next ntid hnp, heq]
      · rw [hn, h2] at hu
        cases hu
        rw [taskWhole_eq next ntid hnp, heq]
    rcases Nat.eq_or_lt_of_le hj with hje | hjj
    · rw [← hje] at ht
      have hu := answerLoop_untouched text fuel tid.whole (index + 1) tasks3 r h index (by omega)
      have hidx : tasks3[index]? = some { task with answer := some ABSENT } := by
        unfold_let tasks3 tasks2
        split
        · rw [setAnswer_getElem_ne _ _ _ _ (by omega)]
          exact setAnswer_getElem_eq tasks index _ task h1
        · exact setAnswer_getElem_eq tasks index _ task h1
      rw [hu, hidx] at ht
      cases ht
      rfl
    · exact ih r hmono2 hcur2 h j t (by omega) ht
  | case11 current index tasks task h1 fuel tid hp hsub next h2 ntid hnp nsub hnsub hlt hne ih =>
    intro r hmono hcur h j t hj ht
    have := hmono index task next h1 h2
    rw [taskWhole_eq task tid hp, taskWhole_eq next ntid hnp] at this
    omega

theorem task_update_self (t : Task) (a : String) (h : t.answer = some a) :
    ({ t with answer := some a } : Task) = t := by
  cases t
  simp_all

theorem setAnswer_self (ts : List Task) (i : Nat) (t : Task) (a : String)
    (h : ts[i]? = some t) (ha : t.answer = some a) : setAnswer ts i a = ts := by
  unfold setAnswer
  rw [h]
  show ts.set i { t with answer := some a } = ts
  rw [task_update_self t a ha]
  exact list_set_self ts i t h

theorem answerLoop_idem (text : String) :
    ∀ (fuel current index : Nat) (tasks r : List Task),
      answerLoop text fuel current index tasks = .ok r →
      answerLoop text fuel current index r = .ok r := by
  intro fuel current index tasks
  induction fuel, current, index, tasks using answerLoop.induct text with
  | case1 fuel current index tasks h1 =>
    intro r h
    rw [answerLoop] at h
    simp only [h1] at h
    cases h
    rw [answerLoop]
    simp only [h1]
  | case2 current index tasks task h1 =>
    intro r h
    rw [answerLoop] at h
    simp only [h1] at h
    cases h
  | case3 current index tasks task h1 fuel hp =>
    intro r h
    rw [answerLoop] at h
    simp only [h1, hp] at h
    exact Except.noConfusion h
  | case4 current index tasks task h1 fuel tid hp sub hsub hle answer tasks2 ih =>
    intro r h
    rw [answerLoop] at h
    simp only [h1, hp, hsub, if_pos hle] at h
    have h0 := h
    rw [← apply_ite (setAnswer tasks index)] at h
    have hr1 := answerLoop_untouched text fuel tid.whole (index + 1) _ r h index (by omega)
    rw [setAnswer_getElem_eq tasks index _ task h1] at hr1
    rw [answerLoop]
    simp only [hr1, hp, hsub, if_pos hle]
    rw [← apply_ite (setAnswer r index), setAnswer_self r index _ _ hr1 rfl]
    exact ih r h0
  | case5 current index tasks task h1 fuel tid hp sub hsub hle ih =>
    intro r h
    rw [answerLoop] at h
    simp only [h1, hp, hsub, if_neg hle] at h
    have hr1 := answerLoop_untouched text fuel current (index + 1) tasks r h index (by omega)
    rw [h1] at hr1
    rw [answerLoop]
    simp only [hr1, hp, hsub, if_neg hle]
    exact ih r h
  | case6 current index tasks task h1 fuel tid hp hsub h2 =>
    intro r h
    rw [answerLoop] at h
    simp only [h1, hp, hsub, h2] at h
    exact Except.noConfusion h
  | case7 current index tasks task h1 fuel tid hp hsub next h2 hnp =>
    intro r h
    rw [answerLoop] at h
    simp only [h1, hp, hsub, h2, hnp] at h
    exact Except.noConfusion h
  | case8 current index tasks task h1 fuel tid hp hsub next h2 ntid hnp hnsub tasks2 tasks3 ih =>
    intro r h
    rw [answerLoop] at h
    simp only [h1, hp, hsub, h2, hnp, hnsub] at h
    have hr1 := answerLoop_untouched text fuel ntid.whole (index + 2) _ r h index (by omega)
    have hr2 := answerLoop_untouched text fuel ntid.whole (index + 2) _ r h (index + 1) (by omega)
    rw [setAnswer_getElem_ne _ _ _ _ (by omega),
      setAnswer_getElem_eq tasks index _ task h1] at hr1
    rw [setAnswer_getElem_eq _ _ _ next (by
      rw [setAnswer_getElem_ne _ _ _ _ (by omega)]
      exact h2)] at hr2
    rw [answerLoop]
    simp only [hr1, hr2, hp, hsub, hnp, hnsub]
    rw [setAnswer_self r index _ _ hr1 rfl, setAnswer_self r (index + 1) _ _ hr2 rfl]
    exact ih r h
  | case9 current index tasks task h1 fuel tid hp hsub next h2 ntid hnp nsub hnsub hlt tasks2 next_answer tasks3 ih =>
    intro r h
    rw [answerLoop] at h
    simp only [h1, hp, hsub, h2, hnp, hnsub, if_pos hlt] at h
    have h0 := h
    rw [← apply_ite
      (setAnswer (setAnswer tasks index (get_answer_text tid.whole text)) (index + 1))] at h
    have hr1 := answerLoop_untouched text fuel ntid.whole (index + 2) _ r h index (by omega)
    have hr2 := answerLoop_untouched text fuel ntid.whole (index + 2) _ r h (index + 1) (by omega)
    rw [setAnswer_getElem_ne _ _ _ _ (by omega),
      setAnswer_getElem_eq tasks index _ task h1] at hr1
    rw [setAnswer_getElem_eq _ _ _ next (by
      rw [setAnswer_getElem_ne _ _ _ _ (by omega)]
      exact h2)] at hr2
    rw [answerLoop]
    simp only [hr1, hr2, hp, hsub, hnp, hnsub, if_pos hlt]
    rw [setAnswer_self r index _ _ hr1 rfl]
    rw [← apply_ite (setAnswer r (index + 1)), setAnswer_self r (index + 1) _ _ hr2 rfl]
    exact ih r h0
  | case10 current index tasks task h1 fuel tid hp hsub next h2 ntid hnp nsub hnsub hlt heq tasks2 next_answer tasks3 ih =>
    intro r h
    rw [answerLoop] at h
    simp only [h1, hp, hsub, h2, hnp, hnsub, if_neg hlt, if_pos heq] at h
    by_cases hD : get_answer_text tid.whole text ≠ ABSENT
    · rw [if_pos hD] at h
      have h0 := h
      -- unfold one more step of the first run to learn the value at index + 1
      have hT3 : (setAnswer (setAnswer tasks index ABSENT) (index + 1)
          (get_answer_part nsub (get_answer_text tid.whole text)))[index + 1]? =
          some { next with
            answer := some (get_answer_part nsub (get_answer_text tid.whole text)) } :=
        setAnswer_getElem_eq _ _ _ next (by
          rw [setAnswer_getElem_ne _ _ _ _ (by omega)]
          exact h2)
      cases fuel with
      | zero =>
        rw [answerLoop] at h
        simp only [hT3] at h
        exact Except.noConfusion h
      | succ fuel =>
        rw [answerLoop] at h
        simp only [hT3, hnp, hnsub] at h
        rw [if_pos (by omega)] at h
        rw [heq, if_pos hD] at h
        rw [setAnswer_self _ _ _ _ hT3 rfl] at h
        have hr2 := answerLoop_untouched text fuel tid.whole (index + 2) _ r h
          (index + 1) (by omega)
        rw [hT3] at hr2
        have hr1 := answerLoop_untouched text fuel tid.whole (index + 2) _ r h index
          (by omega)
        rw [setAnswer_getElem_ne _ _ _ _ (by omega),
          setAnswer_getElem_eq tasks index _ task h1] at hr1
        rw [answerLoop]
        simp only [hr1, hr2, hp, hsub, hnp, hnsub, if_neg hlt, if_pos heq]
        rw [if_pos hD]
        rw [setAnswer_self r index _ _ hr1 rfl, setAnswer_self r (index + 1) _ _ hr2 rfl]
        have hx : tasks3 = setAnswer (setAnswer tasks index ABSENT) (index + 1)
            (get_answer_part nsub (get_answer_text tid.whole text)) := by
          unfold_let tasks3 tasks2 next_answer
          rw [if_pos hD]
        exact ih r (by rw [hx]; exact h0)
    · rw [if_neg hD] at h
      have hr1 := answerLoop_untouched text fuel tid.whole (index + 1) _ r h index (by omega)
      rw [setAnswer_getElem_eq tasks index _ task h1] at hr1
      have hrid := answerLoop_id_eq text fuel tid.whole (index + 1) _ r h (index + 1)
      rw [setAnswer_getElem_ne _ _ _ _ (by omega), h2] at hrid
      rw [answerLoop]
      cases hrn : r[index + 1]? with
      | none =>
        rw [hrn] at hrid
        cases hrid
      | some rnext =>
        rw [hrn] at hrid
        have hridv : rnext.id_tasks_book = next.id_tasks_book := by
          simpa using hrid
        simp only [hr1, hrn, hp, hsub, hridv, hnp, hnsub, if_neg hlt, if_pos heq]
        rw [if_neg hD]
        rw [setAnswer_self r index _ _ hr1 rfl]
        have hx : tasks3 = setAnswer tasks index ABSENT := by
          unfold_let tasks3 tasks2 next_answer
          rw [if_neg hD]
        exact ih r (by rw [hx]; exact h)
  | case11 current index tasks task h1 fuel tid hp hsub next h2 ntid hnp nsub hnsub hlt hne ih =>
    intro r h
    rw [answerLoop] at h
    simp only [h1, hp, hsub, h2, hnp, hnsub, if_neg hlt, if_neg hne] at h
    have hr1 := answerLoop_untouched text fuel tid.whole (index + 1) tasks r h index (by omega)
    rw [h1] at hr1
    have hrid := answerLoop_id_eq text fuel tid.whole (index + 1) tasks r h (index + 1)
    rw [h2] at hrid
    rw [answerLoop]
    cases hrn : r[index + 1]? with
    | none =>
      rw [hrn] at hrid
      cases hrid
    | some rnext =>
      rw [hrn] at hrid
      have hridv : rnext.id_tasks_book = next.id_tasks_book := by
        simpa using hrid
      simp only [hr1, hrn, hp, hsub, hridv, hnp, hnsub, if_neg hlt, if_neg hne]
      exact ih r h

theorem get_chapter_data_id (id : Nat) (m : Match) (parent : Nat) :
    (get_chapter_data id m parent).id = id := by
  unfold get_chapter_data
  split <;> rfl

theorem get_chapter_data_parent (id : Nat) (m : Match) (parent : Nat) :
    (get_chapter_data id m parent).parent = parent := by
  unfold get_chapter_data
  split <;> rfl

theorem get_task_data_paragraph (m : Match) (p : Nat) (prev : Option String)
    (ex : Bool) (t : Task) (h : get_task_data m p prev ex = some t) :
    t.paragraph = p := by
  unfold get_task_data at h
  split at h
  · split at h
    · injection h with h
      rw [← h]
    · exact Option.noConfusion h
  · split at h
    · split at h
      · injection h with h
        rw [← h]
      · exact Option.noConfusion h
    · split at h
      · injection h with h
        rw [← h]
      · exact Option.noConfusion h

theorem chaptersInv_append (chs : List Chapter) (c : Chapter)
    (hinv : ∀ k cc, chs[k]? = some cc → cc.id = k + 1 ∧ cc.parent ≤ k)
    (hid : c.id = chs.length + 1) (hpar : c.parent ≤ chs.length) :
    ∀ k cc, (chs ++ [c])[k]? = some cc → cc.id = k + 1 ∧ cc.parent ≤ k := by
  intro k cc hk
  rcases Nat.lt_or_ge k chs.length with hlt | hge
  · rw [List.getElem?_append, if_pos hlt] at hk
    exact hinv k cc hk
  · rw [List.getElem?_append, if_neg (by omega)] at hk
    cases hkl : k - chs.length with
    | zero =>
      rw [hkl] at hk
      simp only [List.getElem?_cons_zero, Option.some.injEq] at hk
      subst hk
      have hke : k = chs.length := by omega
      subst hke
      exact ⟨hid, hpar⟩
    | succ n =>
      rw [hkl] at hk
      simp at hk

theorem getLast_inv (chs : List Chapter) (lastCh : Chapter)
    (hinv : ∀ k c, chs[k]? = some c → c.id = k + 1 ∧ c.parent ≤ k)
    (hlast : chs.getLast? = some lastCh) :
    lastCh.id = chs.length ∧ 1 ≤ chs.length := by
  rw [List.getLast?_eq_getElem?] at hlast
  have hne : chs.length ≠ 0 := by
    intro hz
    rw [List.getElem?_eq_none (by omega)] at hlast
    cases hlast
  have := (hinv (chs.length - 1) lastCh hlast).1
  constructor
  · omega
  · omega

theorem find_next_task_spec (data : List String) :
    ∀ (fuel : Nat) (tasks : List Task) (next_index : Nat) (previous_id : Option String)
      (paragraph : Nat) (ts2 : List Task) (ni : Nat),
      find_next_task data fuel tasks next_index previous_id paragraph = .ok (ts2, ni) →
      ∃ new, ts2 = tasks ++ new ∧
        ∀ t ∈ new, ∃ m : Match, get_task_data m paragraph previous_id false = some t := by
  intro fuel tasks next_index previous_id paragraph
  induction fuel, tasks, next_index, previous_id, paragraph using
    find_next_task.induct data with
  | case1 fuel tasks next_index previous_id paragraph h1 =>
    intro ts2 ni h
    rw [find_next_task] at h
    simp only [h1] at h
    exact Except.noConfusion h
  | case2 tasks next_index previous_id paragraph text h1 =>
    intro ts2 ni h
    rw [find_next_task] at h
    simp only [h1] at h
    exact Except.noConfusion h
  | case3 tasks next_index previous_id paragraph text h1 fuel hm =>
    intro ts2 ni h
    rw [find_next_task] at h
    simp only [h1, hm] at h
    cases h
    exact ⟨[], by simp⟩
  | case4 tasks next_index previous_id paragraph text h1 fuel m hm hsup =>
    intro ts2 ni h
    rw [find_next_task] at h
    simp only [h1, hm, if_pos hsup] at h
    cases h
    exact ⟨[], by simp⟩
  | case5 tasks next_index previous_id paragraph text h1 fuel m hm hsup hgt =>
    intro ts2 ni h
    rw [find_next_task] at h
    simp only [h1, hm, if_neg hsup, hgt] at h
    exact Except.noConfusion h
  | case6 tasks next_index previous_id paragraph text h1 fuel m hm hsup t hgt ih =>
    intro ts2 ni h
    rw [find_next_task] at h
    simp only [h1, hm, if_neg hsup, hgt] at h
    obtain ⟨new, hnew, hmem⟩ := ih ts2 ni h
    refine ⟨t :: new, by simpa using hnew, ?_⟩
    intro u hu
    rcases List.mem_cons.mp hu with hu | hu
    · subst hu
      exact ⟨m, hgt⟩
    · exact hmem u hu

theorem StInv_append_one (st : PState) (m : Match) (parent : Nat)
    (hinv : StInv st) (hpar : parent ≤ st.chapters.length) :
    ∀ k c, (st.chapters ++ [get_chapter_data st.current_id m parent])[k]? = some c →
      c.id = k + 1 ∧ c.parent ≤ k := by
  apply chaptersInv_append _ _ hinv.2.2.1
  · rw [get_chapter_data_id, hinv.1]
  · rw [get_chapter_data_parent]
    exact hpar

theorem StInv_tasks_ok (st : PState) (hinv : StInv st) (lastCh : Chapter)
    (hlast : st.chapters.getLast? = some lastCh) (ts2 : List Task)
    (hmem : ∀ t ∈ ts2, t ∈ st.tasks ∨ t.paragraph = lastCh.id) :
    ∀ t ∈ ts2, 1 ≤ t.paragraph ∧ t.paragraph ≤ st.chapters.length := by
  intro t htm
  obtain ⟨hid, hlen⟩ := getLast_inv st.chapters lastCh hinv.2.2.1 hlast
  rcases hmem t htm with hm | hm
  · exact hinv.2.2.2 t hm
  · rw [hm, hid]
    omega

theorem parserLoop_inv (data : List String) :
    ∀ (fuel index : Nat) (st : PState), ∀ st' : PState,
      StInv st → parserLoop data fuel index st = .ok st' → StInv st' := by
  intro fuel index st
  induction fuel, index, st using parserLoop.induct data with
  | case1 fuel index st h1 =>
    intro st' hinv h
    rw [parserLoop] at h
    simp only [h1] at h
    cases h
    exact hinv
  | case2 index st text h1 =>
    intro st' hinv h
    rw [parserLoop] at h
    simp only [h1] at h
    exact Except.noConfusion h
  | case3 index st text h1 fuel sm hsm hnum =>
    intro st' hinv h
    rw [parserLoop] at h
    simp only [h1, hsm, hnum] at h
    exact Except.noConfusion h
  | case4 index st text h1 fuel sm hsm num hnum hcond h2 =>
    intro st' hinv h
    rw [parserLoop] at h
    simp only [h1, hsm, hnum, if_pos hcond, h2] at h
    exact Except.noConfusion h
  | case5 index st text h1 fuel sm hsm num hnum hcond text2 h2 cm hcm ih =>
    intro st' hinv h
    rw [parserLoop] at h
    simp only [h1, hsm, hnum, if_pos hcond, h2, hcm] at h
    refine ih st' ?_ h
    obtain ⟨hc, hs, hch, ht⟩ := hinv
    refine ⟨by simp [hc], by simp [hc], ?_, ?_⟩
    · intro k c hk
      rw [show st.chapters ++ [get_chapter_data st.current_id sm 0,
          get_chapter_data (st.current_id + 1) cm st.current_id] =
          (st.chapters ++ [get_chapter_data st.current_id sm 0]) ++
          [get_chapter_data (st.current_id + 1) cm st.current_id] by simp] at hk
      refine chaptersInv_append _ _ (StInv_append_one st sm 0 ⟨hc, hs, hch, ht⟩ (by omega))
        ?_ ?_ k c hk
      · rw [get_chapter_data_id]
        simp [hc]
      · rw [get_chapter_data_parent]
        simp [hc]
    · intro t htm
      have := ht t htm
      simp only [List.length_append, List.length_cons, List.length_nil]
      omega
  | case6 index st text h1 fuel sm hsm num hnum hcond text2 h2 hcm ih =>
    intro st' hinv h
    rw [parserLoop] at h
    simp only [h1, hsm, hnum, if_pos hcond, h2, hcm] at h
    refine ih st' ?_ h
    obtain ⟨hc, hs, hch, ht⟩ := hinv
    refine ⟨by simp [hc], by simp [hc], ?_, ?_⟩
    · exact StInv_append_one st sm 0 ⟨hc, hs, hch, ht⟩ (by omega)
    · intro t htm
      have := ht t htm
      simp only [List.length_append, List.length_cons, List.length_nil]
      omega
  | case7 index st text h1 fuel sm hsm num hnum hncond cm hcm ih =>
    intro st' hinv h
    rw [parserLoop] at h
    simp only [h1, hsm, hnum, if_neg hncond, hcm] at h
    refine ih st' ?_ h
    obtain ⟨hc, hs, hch, ht⟩ := hinv
    refine ⟨by simp [hc], by simpa using Nat.le_succ_of_le hs, ?_, ?_⟩
    · exact StInv_append_one st cm st.supreme_id ⟨hc, hs, hch, ht⟩ hs
    · intro t htm
      have := ht t htm
      simp only [List.length_append, List.length_cons, List.length_nil]
      omega
  | case8 index st text h1 fuel sm hsm num hnum hncond hcm hlast =>
    intro st' hinv h
    rw [parserLoop] at h
    simp only [h1, hsm, hnum, if_neg hncond, hcm, hlast] at h
    exact Except.noConfusion h
  | case9 index st text h1 fuel sm hsm num hnum hncond hcm lastCh hlast tm htm e herr =>
    intro st' hinv h
    rw [parserLoop] at h
    simp only [h1, hsm, hnum] at h
    rw [if_neg hncond] at h
    simp only [hcm, hlast, htm, herr] at h
    exact Except.noConfusion h
  | case10 index st text h1 fuel sm hsm num hnum hncond hcm lastCh hlast tm htm previous_id hprev hgt =>
    intro st' hinv h
    rw [parserLoop] at h
    simp only [h1, hsm, hnum] at h
    rw [if_neg hncond] at h
    simp only [hcm, hlast, htm, hprev, hgt] at h
    exact Except.noConfusion h
  | case11 index st text h1 fuel sm hsm num hnum hncond hcm lastCh hlast tm htm previous_id hprev next hgt e herr =>
    intro st' hinv h
    rw [parserLoop] at h
    simp only [h1, hsm, hnum] at h
    rw [if_neg hncond] at h
    simp only [hcm, hlast, htm, hprev, hgt, herr] at h
    exact Except.noConfusion h
  | case12 index st text h1 fuel sm hsm num hnum hncond hcm lastCh hlast tm htm previous_id hprev next hgt ts2 newIndex hfind ih =>
    intro st' hinv h
    rw [parserLoop] at h
    simp only [h1, hsm, hnum] at h
    rw [if_neg hncond] at h
    simp only [hcm, hlast, htm, hprev, hgt, hfind] at h
    refine ih st' ?_ h
    obtain ⟨hc, hs, hch, ht⟩ := hinv
    refine ⟨hc, hs, hch, ?_⟩
    apply StInv_tasks_ok st ⟨hc, hs, hch, ht⟩ lastCh hlast
    obtain ⟨new, hnew, hmem⟩ := find_next_task_spec data _ _ _ _ _ _ _ hfind
    intro t htm2
    rw [hnew] at htm2
    rcases List.mem_append.mp htm2 with htm2 | htm2
    · rcases List.mem_append.mp htm2 with htm2 | htm2
      · exact Or.inl htm2
      · right
        rcases List.mem_singleton.mp htm2 with rfl
        exact get_task_data_paragraph _ _ _ _ _ hgt
    · right
      obtain ⟨m, hms⟩ := hmem t htm2
      exact get_task_data_paragraph _ _ _ _ _ hms
  | case13 index st text h1 fuel sm hsm num hnum hncond hcm lastCh hlast htm hgt =>
    intro st' hinv h
    rw [parserLoop] at h
    simp only [h1, hsm, hnum] at h
    rw [if_neg hncond] at h
    simp only [hcm, hlast, htm, hgt] at h
    exact Except.noConfusion h
  | case14 index st text h1 fuel sm hsm num hnum hncond hcm lastCh hlast htm next hgt ih =>
    intro st' hinv h
    rw [parserLoop] at h
    simp only [h1, hsm, hnum] at h
    rw [if_neg hncond] at h
    simp only [hcm, hlast, htm, hgt] at h
    refine ih st' ?_ h
    obtain ⟨hc, hs, hch, ht⟩ := hinv
    refine ⟨hc, hs, hch, ?_⟩
    apply StInv_tasks_ok st ⟨hc, hs, hch, ht⟩ lastCh hlast
    intro t htm2
    rcases List.mem_append.mp htm2 with htm2 | htm2
    · exact Or.inl htm2
    · right
      rcases List.mem_singleton.mp htm2 with rfl
      exact get_task_data_paragraph _ _ _ _ _ hgt
  | case15 index st text h1 fuel hsup cm hcm ih =>
    intro st' hinv h
    rw [parserLoop] at h
    simp only [h1, hsup, hcm] at h
    refine ih st' ?_ h
    obtain ⟨hc, hs, hch, ht⟩ := hinv
    refine ⟨by simp [hc], by simpa using Nat.le_succ_of_le hs, ?_, ?_⟩
    · exact StInv_append_one st cm st.supreme_id ⟨hc, hs, hch, ht⟩ hs
    · intro t htm
      have := ht t htm
      simp only [List.length_append, List.length_cons, List.length_nil]
      omega
  | case16 index st text h1 fuel hsup hchap tm htm e herr =>
    intro st' hinv h
    rw [parserLoop] at h
    simp only [h1, hsup, hchap, htm, herr] at h
    exact Except.noConfusion h
  | case17 index st text h1 fuel hsup hchap tm htm previous_id hprev hlast =>
    intro st' hinv h
    rw [parserLoop] at h
    simp only [h1, hsup, hchap, htm, hprev, hlast] at h
    exact Except.noConfusion h
  | case18 index st text h1 fuel hsup hchap tm htm previous_id hprev lastCh hlast hgt =>
    intro st' hinv h
    rw [parserLoop] at h
    simp only [h1, hsup, hchap, htm, hprev, hlast, hgt] at h
    exact Except.noConfusion h
  | case19 index st text h1 fuel hsup hchap tm htm previous_id hprev lastCh hlast next hgt e herr =>
    intro st' hinv h
    rw [parserLoop] at h
    simp only [h1, hsup, hchap, htm, hprev, hlast, hgt, herr] at h
    exact Except.noConfusion h
  | case20 index st text h1 fuel hsup hchap tm htm previous_id hprev lastCh hlast next hgt ts2 newIndex hfind ih =>
    intro st' hinv h
    rw [parserLoop] at h
    simp only [h1, hsup, hchap, htm, hprev, hlast, hgt, hfind] at h
    refine ih st' ?_ h
    obtain ⟨hc, hs, hch, ht⟩ := hinv
    refine ⟨hc, hs, hch, ?_⟩
    apply StInv_tasks_ok st ⟨hc, hs, hch, ht⟩ lastCh hlast
    obtain ⟨new, hnew, hmem⟩ := find_next_task_spec data _ _ _ _ _ _ _ hfind
    intro t htm2
    rw [hnew] at htm2
    rcases List.mem_append.mp htm2 with htm2 | htm2
    · rcases List.mem_append.mp htm2 with htm2 | htm2
      · exact Or.inl htm2
      · right
        rcases List.mem_singleton.mp htm2 with rfl
        exact get_task_data_paragraph _ _ _ _ _ hgt
    · right
      obtain ⟨m, hms⟩ := hmem t htm2
      exact get_task_data_paragraph _ _ _ _ _ hms
  | case21 index st fuel h1 hsup hchap htm =>
    intro st' hinv h
    rw [parserLoop] at h
    simp only [h1, hsup, hchap, htm, if_pos rfl] at h
    cases h
    obtain ⟨hc, hs, hch, ht⟩ := hinv
    exact ⟨hc, hs, hch, ht⟩
  | case22 index st text h1 fuel hsup hchap htm hne =>
    intro st' hinv h
    rw [parserLoop] at h
    simp only [h1, hsup, hchap, htm, if_neg hne] at h
    exact Except.noConfusion h

theorem StInv_init : StInv initState := by
  refine ⟨rfl, by simp [initState], ?_, ?_⟩
  · intro k c hk
    simp [initState] at hk
  · intro t htm
    simp [initState] at htm

theorem collectAnswers_eq (data : List String) :
    ∀ (fuel i : Nat), data.length ≤ fuel + i →
      collectAnswers data fuel i = (data.drop i).takeWhile (fun t => !(isBoundary t)) := by
  intro fuel
  induction fuel with
  | zero =>
    intro i hle
    rw [collectAnswers]
    cases h : data[i]? with
    | none =>
      rw [List.drop_eq_nil_of_le (by omega)]
      rfl
    | some text =>
      have := (List.getElem?_eq_some.mp h).1
      omega
  | succ fuel ih =>
    intro i hle
    rw [collectAnswers]
    cases h : data[i]? with
    | none =>
      have hge : data.length ≤ i := by
        by_contra hc
        rw [List.getElem?_eq_getElem (by omega)] at h
        cases h
      rw [List.drop_eq_nil_of_le hge]
      rfl
    | some text =>
      have hi : i < data.length := (List.getElem?_eq_some.mp h).1
      have hdrop : data.drop i = text :: data.drop (i + 1) := by
        rw [List.drop_eq_getElem_cons hi]
        rw [(List.getElem?_eq_some.mp h).2]
      rw [hdrop, List.takeWhile_cons]
      show (if pyStrip (ruLower text) = "оглавление" then [] else
        text :: collectAnswers data fuel (i + 1)) = _
      by_cases hb : pyStrip (ruLower text) = "оглавление"
      · rw [if_pos hb]
        have hbf : (!(isBoundary text)) = false := by
          simp [isBoundary, hb]
        rw [hbf]
        simp
      · rw [if_neg hb]
        have hbt : (!(isBoundary text)) = true := by
          simp [isBoundary, hb]
        rw [hbt]
        rw [ih (i + 1) (by omega)]
        simp

theorem wholesMono_pairwise :
    ∀ (ts : List Task), WholesMono ts →
      ∀ j t u, ts[j]? = some t → ts[j + 1]? = some u → taskWhole t ≤ taskWhole u := by
  intro ts
  induction ts with
  | nil =>
    intro hmono j t u ht hu
    cases ht
  | cons a l ih =>
    intro hmono j t u ht hu
    cases j with
    | zero =>
      simp only [List.getElem?_cons_zero, Option.some.injEq] at ht
      subst ht
      cases l with
      | nil => cases hu
      | cons b l2 =>
        simp only [List.getElem?_cons_succ, List.getElem?_cons_zero,
          Option.some.injEq] at hu
        subst hu
        unfold WholesMono at hmono
        simp only [List.map_cons] at hmono
        exact (List.chain'_cons.mp hmono).1
    | succ j =>
      have hmono2 : WholesMono l := by
        unfold WholesMono at hmono ⊢
        simp only [List.map_cons] at hmono
        exact hmono.tail
      simp only [List.getElem?_cons_succ] at ht hu
      exact ih hmono2 j t u ht hu

instance (ts : List Task) : Decidable (WholesMono ts) :=
  inferInstanceAs (Decidable (List.Chain' (fun a b => a ≤ b) (ts.map taskWhole)))

/-! ### Claims -/

/-- C1 (counterexample): `answer_parser` can run to completion and still
leave a task without an `answer` key.  When a sub-part task's whole number
is below the `current_task_num` high-water mark (here: task `1б` after task
`2а`), the `if int(...) >= current_task_num` guard on line 183 is false and
the iteration assigns nothing. -/
theorem C1_counterexample :
    answerParser ["x"] [mkTask "2а", mkTask "1б"] =
      .ok [{ mkTask "2а" with answer := some ABSENT }, mkTask "1б"] ∧
    ¬ AllAnswered [{ mkTask "2а" with answer := some ABSENT }, mkTask "1б"] := by
  constructor
  · rfl
  · intro hall
    have := hall (mkTask "1б") (by simp)
    simp [mkTask] at this

/-- C1 (amended): for every `(answers-text, tasks)` input whose task list
has non-decreasing whole-number ids and on which `answer_parser` runs to
completion, every task record in the returned list carries an `answer`
value (an extracted string or the `ABSENT` sentinel); a missing answer is
represented by `ABSENT`, never by an error. -/
theorem C1_all_tasks_answered (d : List String) (ts r : List Task)
    (hmono : WholesMono ts) (h : answerParser d ts = .ok r) : AllAnswered r := by
  unfold answerParser at h
  have hm := wholesMono_pairwise ts hmono
  have hall := answerLoop_allAnswered (String.intercalate "\n" d) ts.length 0 0 ts r hm
    (fun t _ => Nat.zero_le _) h
  intro t htm
  obtain ⟨j, hj⟩ := List.mem_iff_getElem?.mp htm
  exact hall j t (Nat.zero_le _) hj

/-- C1 (witness). -/
theorem C1_witness :
    WholesMono [mkTask "12", mkTask "13"] ∧
    AllAnswered [{ mkTask "12" with answer := some "42 см" },
      { mkTask "13" with answer := some ABSENT }] :=
  ⟨by simp [WholesMono, List.chain'_cons, List.chain'_singleton]; decide,
   C1_all_tasks_answered ["12. 42 см"] [mkTask "12", mkTask "13"]
     [{ mkTask "12" with answer := some "42 см" },
      { mkTask "13" with answer := some ABSENT }]
     (by simp [WholesMono, List.chain'_cons, List.chain'_singleton]; decide) (by rfl)⟩

/-- C2 (counterexample): a continuation does not, in general, concatenate
onto the previous task's id.  In a `find_next_task` run the `previous_id`
passed down is the run-initial `group(1)` (`"1.1."` here), so after the
explicit task `1.1.1` the continuation `б)` gets id `"1.1.б"`, not the
`"1.1.1.б"` the claim's formula (previous id, dot-normalized, plus suffix)
computes. -/
theorem C2_counterexample :
    (parser ["1. Пункт", "1.1. Название", "1.1.1. Условие.", "б) продолжение.",
        "Ответы и советы"]).map (fun r => r.1.map (fun t => t.id_tasks_book)) =
      .ok ["1.1.1", "1.1.б"] ∧
    pyDropLast (withDot "1.1.1" ++ "б)") = "1.1.1.б" ∧
    ("1.1.б" : String) ≠ "1.1.1.б" := by
  refine ⟨by rfl, by rfl, by decide⟩

/-- C2 (amended): a continuation task's assembled book id is the
`previous_id` reference passed to `get_task_data` — with a trailing `.`
appended when missing — concatenated with the continuation's suffix group,
final character stripped; and every task appended during one
`find_next_task` run is built against the single, unchanged `previous_id`
of that run (so a run of continuations shares one leading component: the
run's `previous_id`, not the id of the most recent fully-specified
sibling). -/
theorem C2_continuation_ids :
    (∀ (m : Match) (p : Nat) (pv : String) (t : Task),
      m.g1 = none → get_task_data m p (some pv) false = some t →
      ∃ g4 g5, m.g4 = some g4 ∧ m.g5 = some g5 ∧
        t.id_tasks_book = pyDropLast (withDot pv ++ g4)) ∧
    (∀ (data : List String) (fuel : Nat) (tasks : List Task) (ni : Nat)
       (pv : String) (p : Nat) (ts2 : List Task) (ni2 : Nat),
      find_next_task data fuel tasks ni (some pv) p = .ok (ts2, ni2) →
      ∃ new, ts2 = tasks ++ new ∧
        ∀ t ∈ new, ∃ m : Match, get_task_data m p (some pv) false = some t ∧
          (m.g1 = none → ∃ g4, m.g4 = some g4 ∧
            t.id_tasks_book = pyDropLast (withDot pv ++ g4))) := by
  have cont : ∀ (m : Match) (p : Nat) (pv : String) (t : Task),
      m.g1 = none → get_task_data m p (some pv) false = some t →
      ∃ g4 g5, m.g4 = some g4 ∧ m.g5 = some g5 ∧
        t.id_tasks_book = pyDropLast (withDot pv ++ g4) := by
    intro m p pv t hg1 h
    unfold get_task_data at h
    rw [if_neg (by decide)] at h
    rw [hg1] at h
    cases hg4 : m.g4 with
    | none =>
      rw [hg4] at h
      exact Option.noConfusion h
    | some g4 =>
      rw [hg4] at h
      cases hg5 : m.g5 with
      | none =>
        rw [hg5] at h
        exact Option.noConfusion h
      | some g5 =>
        rw [hg5] at h
        refine ⟨g4, g5, rfl, rfl, ?_⟩
        injection h with h
        rw [← h]
  refine ⟨cont, ?_⟩
  intro data fuel tasks ni pv p ts2 ni2 h
  obtain ⟨new, hnew, hmem⟩ := find_next_task_spec data fuel tasks ni (some pv) p ts2 ni2 h
  refine ⟨new, hnew, ?_⟩
  intro t htm
  obtain ⟨m, hm⟩ := hmem t htm
  refine ⟨m, hm, ?_⟩
  intro hg1
  obtain ⟨g4, g5, hg4, _, hid⟩ := cont m p pv t hg1 hm
  exact ⟨g4, hg4, hid⟩

/-- C2 (witness). -/
theorem C2_witness :
    ∃ g4 g5, (⟨none, none, none, some "б)", some "y"⟩ : Match).g4 = some g4 ∧
      (⟨none, none, none, some "б)", some "y"⟩ : Match).g5 = some g5 ∧
      ({ id_tasks_book := "1147.б", task := "y", answer := none, classes := "5;6",
         paragraph := 1, topic_id := 1, level := 1 } : Task).id_tasks_book =
        pyDropLast (withDot "1147." ++ g4) :=
  C2_continuation_ids.1 ⟨none, none, none, some "б)", some "y"⟩ 1 "1147."
    { id_tasks_book := "1147.б", task := "y", answer := none, classes := "5;6",
      paragraph := 1, topic_id := 1, level := 1 } rfl (by rfl)

/-- C3: a top-level paragraph matching none of the recognized patterns
(supreme-chapter, sub-chapter, task, the answers-section literal) makes the
parse abort at once with the `ValueError` carrying that paragraph's index
and text; the `Except.error` result carries no partial collections.  The
first conjunct covers any reached loop state, the second the parser
entry point. -/
theorem C3_unrecognized_fatal :
    (∀ (data : List String) (fuel index : Nat) (st : PState) (text : String),
      data[index]? = some text →
      supremeChapterMatch text = none → chapterMatch text = none →
      taskMatch text = none → text ≠ "Ответы и советы" →
      parserLoop data (fuel + 1) index st = .error (.unrecognized index text)) ∧
    (∀ (data : List String) (text : String),
      data[0]? = some text →
      supremeChapterMatch text = none → chapterMatch text = none →
      taskMatch text = none → text ≠ "Ответы и советы" →
      parser data = .error (.unrecognized 0 text)) := by
  have main : ∀ (data : List String) (fuel index : Nat) (st : PState) (text : String),
      data[index]? = some text →
      supremeChapterMatch text = none → chapterMatch text = none →
      taskMatch text = none → text ≠ "Ответы и советы" →
      parserLoop data (fuel + 1) index st = .error (.unrecognized index text) := by
    intro data fuel index st text h1 hsup hchap htm hne
    rw [parserLoop]
    simp only [h1, hsup, hchap, htm, if_neg hne]
  refine ⟨main, ?_⟩
  intro data text hh hsup hchap htm hne
  cases data with
  | nil => cases hh
  | cons a l =>
    have ha : a = text := by simpa using hh
    subst ha
    unfold parser
    rw [show (a :: l).length = l.length + 1 from rfl,
      main (a :: l) l.length 0 initState a (by simp) hsup hchap htm hne]

/-- C3 (witness). -/
theorem C3_witness :
    parserLoop ["мусор"] 1 0 initState = .error (.unrecognized 0 "мусор") ∧
    parser ["мусор"] = .error (.unrecognized 0 "мусор") :=
  ⟨C3_unrecognized_fatal.1 ["мусор"] 0 0 initState "мусор" (by simp) rfl rfl rfl (by decide),
   C3_unrecognized_fatal.2 ["мусор"] "мусор" (by simp) rfl rfl rfl (by decide)⟩

/-- C4: in all three cases of `get_task_data` — exclusive single-line task,
implicit continuation, explicit numbering — the emitted `id_tasks_book` is
the assembled string with its final character stripped (`[:-1]`). -/
theorem C4_trailing_char_stripped :
    ∀ (m : Match) (p : Nat) (prev : Option String) (t : Task),
      (get_task_data m p prev true = some t →
        ∃ g1, m.g1 = some g1 ∧ t.id_tasks_book = pyDropLast g1) ∧
      (m.g1 = none → get_task_data m p prev false = some t →
        ∃ pv g4, prev = some pv ∧ m.g4 = some g4 ∧
          t.id_tasks_book = pyDropLast (withDot pv ++ g4)) ∧
      (∀ g1, m.g1 = some g1 → get_task_data m p prev false = some t →
        ∃ g2, m.g2 = some g2 ∧ t.id_tasks_book = pyDropLast (g1 ++ g2)) := by
  intro m p prev t
  refine ⟨?_, ?_, ?_⟩
  · intro h
    unfold get_task_data at h
    rw [if_pos rfl] at h
    cases hg1 : m.g1 with
    | none =>
      rw [hg1] at h
      exact Option.noConfusion h
    | some g1 =>
      rw [hg1] at h
      cases hg2 : m.g2 with
      | none =>
        rw [hg2] at h
        exact Option.noConfusion h
      | some g2 =>
        rw [hg2] at h
        refine ⟨g1, rfl, ?_⟩
        injection h with h
        rw [← h]
  · intro hg1 h
    unfold get_task_data at h
    rw [if_neg (by decide)] at h
    rw [hg1] at h
    cases hp : prev with
    | none =>
      rw [hp] at h
      exact Option.noConfusion h
    | some pv =>
      rw [hp] at h
      cases hg4 : m.g4 with
      | none =>
        rw [hg4] at h
        exact Option.noConfusion h
      | some g4 =>
        rw [hg4] at h
        cases hg5 : m.g5 with
        | none =>
          rw [hg5] at h
          exact Option.noConfusion h
        | some g5 =>
          rw [hg5] at h
          refine ⟨pv, g4, rfl, rfl, ?_⟩
          injection h with h
          rw [← h]
  · intro g1 hg1 h
    unfold get_task_data at h
    rw [if_neg (by decide)] at h
    rw [hg1] at h
    cases hg2 : m.g2 with
    | none =>
      rw [hg2] at h
      exact Option.noConfusion h
    | some g2 =>
      rw [hg2] at h
      cases hg3 : m.g3 with
      | none =>
        rw [hg3] at h
        exact Option.noConfusion h
      | some g3 =>
        rw [hg3] at h
        refine ⟨g2, rfl, ?_⟩
        injection h with h
        rw [← h]

/-- C5: in the reconciler's equal-whole-number branch (lines 218-225), when
the current task's id has no sub-part and the next task's id carries the
same whole number, the current task is assigned `ABSENT` and the next task
ends up with the sub-part extraction from the answer block anchored at that
whole number; concretely, for the block `"14. а) 5; б) 7"` the sub-part
extraction returns `"7"` for `б` and `"5"` for `а`. -/
theorem C5_equal_whole_branch :
    (∀ (text : String) (fuel c i : Nat) (ts r : List Task) (t next : Task)
       (w : Nat) (s : String),
      ts[i]? = some t → ts[i + 1]? = some next →
      parseTaskId t.id_tasks_book = some ⟨w, none⟩ →
      parseTaskId next.id_tasks_book = some ⟨w, some s⟩ →
      get_answer_text w text ≠ ABSENT →
      answerLoop text fuel c i ts = .ok r →
      r[i]? = some { t with answer := some ABSENT } ∧
      r[i + 1]? = some { next with
        answer := some (get_answer_part s (get_answer_text w text)) }) ∧
    get_answer_part "б" (get_answer_text 14 "14. а) 5; б) 7") = "7" ∧
    get_answer_part "а" (get_answer_text 14 "14. а) 5; б) 7") = "5" := by
  refine ⟨?_, by rfl, by rfl⟩
  intro text fuel c i ts r t next w s h1 h2 hp hnp hD h
  cases fuel with
  | zero =>
    rw [answerLoop] at h
    simp only [h1] at h
    exact Except.noConfusion h
  | succ fuel =>
    rw [answerLoop] at h
    simp only [h1, hp, h2, hnp] at h
    rw [if_neg (by omega : ¬ w < w), if_pos trivial, if_pos hD] at h
    have hT3 : (setAnswer (setAnswer ts i ABSENT) (i + 1)
        (get_answer_part s (get_answer_text w text)))[i + 1]? =
        some { next with answer := some (get_answer_part s (get_answer_text w text)) } :=
      setAnswer_getElem_eq _ _ _ next (by
        rw [setAnswer_getElem_ne _ _ _ _ (by omega)]
        exact h2)
    cases fuel with
    | zero =>
      rw [answerLoop] at h
      simp only [hT3] at h
      exact Except.noConfusion h
    | succ fuel =>
      rw [answerLoop] at h
      simp only [hT3, hnp] at h
      rw [if_pos (le_refl w), if_pos hD, setAnswer_self _ _ _ _ hT3 rfl] at h
      have hu1 := answerLoop_untouched text fuel w (i + 1 + 1) _ r h i (by omega)
      have hu2 := answerLoop_untouched text fuel w (i + 1 + 1) _ r h (i + 1) (by omega)
      rw [setAnswer_getElem_ne _ _ _ _ (by omega),
        setAnswer_getElem_eq ts i _ t h1] at hu1
      rw [hT3] at hu2
      exact ⟨hu1, hu2⟩

/-- C5 (witness). -/
theorem C5_witness :
    ([{ mkTask "14" with answer := some ABSENT },
      { mkTask "14б" with answer := some "7" }] : List Task)[0]? =
        some { mkTask "14" with answer := some ABSENT } ∧
    ([{ mkTask "14" with answer := some ABSENT },
      { mkTask "14б" with answer := some "7" }] : List Task)[1]? =
        some { mkTask "14б" with
          answer := some (get_answer_part "б" (get_answer_text 14 "14. а) 5; б) 7")) } :=
  C5_equal_whole_branch.1 "14. а) 5; б) 7" 2 0 0 [mkTask "14", mkTask "14б"]
    [{ mkTask "14" with answer := some ABSENT }, { mkTask "14б" with answer := some "7" }]
    (mkTask "14") (mkTask "14б") 14 "б" (by simp) (by simp) (by rfl) (by rfl)
    (by decide) (by rfl)

/-- C6: reaching a paragraph equal to the literal `Ответы и советы` switches
the parser into answer-collection mode: the loop result keeps the chapter
and task collections exactly as they were, and the answers block is the
verbatim run of subsequent paragraphs up to (excluding) the first whose
lowercased, stripped text is `оглавление`, or the end of the stream; the
main loop terminates there (`.ok`). -/
theorem C6_answers_mode :
    (∀ (data : List String) (fuel index : Nat) (st : PState),
      data[index]? = some "Ответы и советы" →
      parserLoop data (fuel + 1) index st =
        .ok { st with answers := st.answers ++
          (data.drop (index + 1)).takeWhile (fun t => !(isBoundary t)) }) ∧
    (∀ (data : List String) (i : Nat),
      collectAnswers data data.length i =
        (data.drop i).takeWhile (fun t => !(isBoundary t))) := by
  constructor
  · intro data fuel index st h1
    rw [parserLoop]
    simp only [h1, show supremeChapterMatch "Ответы и советы" = none from rfl,
      show chapterMatch "Ответы и советы" = none from rfl,
      show taskMatch "Ответы и советы" = none from rfl, if_pos rfl]
    rw [collectAnswers_eq data data.length (index + 1) (by omega)]
    simp
  · intro data i
    exact collectAnswers_eq data data.length i (by omega)

/-- C6 (witness). -/
theorem C6_witness :
    parserLoop ["Ответы и советы", "12. 42", "Оглавление", "1. мусор"] 1 0 initState =
      .ok { initState with answers := ["12. 42"] } := by
  have h := C6_answers_mode.1 ["Ответы и советы", "12. 42", "Оглавление", "1. мусор"] 0 0
    initState (by simp)
  rw [h]
  rfl

/-- C7: whenever `parser` completes, the emitted chapter list is
well-formed: the k-th chapter record carries id `k + 1` (ids are assigned
monotonically increasing from 1 in discovery order), and every `parent`
field is 0 or the id of a chapter emitted strictly earlier. -/
theorem C7_chapter_ids_and_parents (data : List String) (ts : List Task)
    (chs : List Chapter) (aus : List Author)
    (h : parser data = .ok (ts, chs, aus)) : ChaptersWellFormed chs := by
  unfold parser at h
  cases hP : parserLoop data data.length 0 initState with
  | error e =>
    rw [hP] at h
    exact Except.noConfusion h
  | ok st =>
    rw [hP] at h
    have h2 : (if st.answers = [] then Except.ok (st.tasks, st.chapters, authors_data)
        else match answerParser st.answers st.tasks with
          | Except.error e => Except.error e
          | Except.ok ts => Except.ok (ts, st.chapters, authors_data)) =
        Except.ok (ts, chs, aus) := h
    have hinv := parserLoop_inv data data.length 0 initState st StInv_init hP
    have hch := hinv.2.2.1
    have hchs : chs = st.chapters := by
      by_cases hA : st.answers = []
      · rw [if_pos hA] at h2
        injection h2 with h2
        injection h2 with h1 h2
        injection h2 with h2 h3
        exact h2.symm
      · rw [if_neg hA] at h2
        cases hAP : answerParser st.answers st.tasks with
        | error e =>
          rw [hAP] at h2
          exact Except.noConfusion h2
        | ok ts2 =>
          rw [hAP] at h2
          injection h2 with h2
          injection h2 with h1 h2
          injection h2 with h2 h3
          exact h2.symm
    rw [← hchs] at hch
    constructor
    · intro k hk
      exact (hch k (chs[k]) (List.getElem?_eq_getElem hk)).1
    · intro k hk
      obtain ⟨hid, hpar⟩ := hch k (chs[k]) (List.getElem?_eq_getElem hk)
      by_cases h0 : (chs[k]).parent = 0
      · exact Or.inl h0
      · right
        refine ⟨(chs[k]).parent - 1, by omega, by omega, ?_⟩
        have h2 := (hch ((chs[k]).parent - 1) (chs[(chs[k]).parent - 1])
          (List.getElem?_eq_getElem (by omega))).1
        omega

/-- C7 (witness). -/
theorem C7_witness :
    parser ["1. Пункт", "1.1. Название", "1.1.1. Условие задачи.", "Ответы и советы"] =
      .ok ([{ id_tasks_book := "1.1.1", task := "Условие задачи.", answer := none,
              classes := "5;6", paragraph := 2, topic_id := 1, level := 1 }],
           [{ id := 1, name := "1.Пункт", parent := 0 },
            { id := 2, name := "1.1.Название", parent := 1 }],
           authors_data) ∧
    ChaptersWellFormed [{ id := 1, name := "1.Пункт", parent := 0 },
      { id := 2, name := "1.1.Название", parent := 1 }] :=
  ⟨by rfl,
   C7_chapter_ids_and_parents
     ["1. Пункт", "1.1. Название", "1.1.1. Условие задачи.", "Ответы и советы"]
     [{ id_tasks_book := "1.1.1", task := "Условие задачи.", answer := none,
        classes := "5;6", paragraph := 2, topic_id := 1, level := 1 }]
     [{ id := 1, name := "1.Пункт", parent := 0 },
      { id := 2, name := "1.1.Название", parent := 1 }]
     authors_data (by rfl)⟩

/-- C8: answer reconciliation is idempotent — when `answer_parser` runs to
completion on `(answers-text, tasks)`, running it again on the answers text
and the already-annotated task list returns exactly the same list, hence
the same answer assignment for every task. -/
theorem C8_reconciliation_idempotent (d : List String) (ts r : List Task)
    (h : answerParser d ts = .ok r) : answerParser d r = .ok r := by
  unfold answerParser at h ⊢
  rw [answerLoop_length _ _ _ _ _ _ h]
  exact answerLoop_idem _ _ _ _ _ _ h

/-- C8 (witness). -/
theorem C8_witness :
    answerParser ["14. а) 5; б) 7"]
      [{ mkTask "14" with answer := some ABSENT },
       { mkTask "14б" with answer := some "7" }] =
    .ok [{ mkTask "14" with answer := some ABSENT },
         { mkTask "14б" with answer := some "7" }] :=
  C8_reconciliation_idempotent ["14. а) 5; б) 7"] [mkTask "14", mkTask "14б"]
    [{ mkTask "14" with answer := some ABSENT },
     { mkTask "14б" with answer := some "7" }] (by rfl)

/-- C9 (counterexample): a task list whose final task has a bare
whole-number id does not always make `answer_parser` fail: with
`["1", "2"]` the look-ahead branch consumes the final bare task as the
`next` of its predecessor and the run completes. -/
theorem C9_counterexample :
    answerParser ["x"] [mkTask "1", mkTask "2"] =
      .ok [{ mkTask "1" with answer := some ABSENT },
           { mkTask "2" with answer := some ABSENT }] ∧
    parseTaskId (mkTask "2").id_tasks_book = some ⟨2, none⟩ :=
  ⟨by rfl, by rfl⟩

/-- C9 (amended): whenever the reconciler's cursor actually reaches the
final task of the list and that task's book id is a bare whole number with
no sub-part, the unguarded `tasks_data[index + 1]` look-ahead on line 195
is an out-of-range access and `answer_parser` fails instead of assigning
that task an answer; in particular it fails on every single-element task
list with a bare id. -/
theorem C9_bare_lookahead_fails :
    (∀ (text : String) (fuel c i : Nat) (ts : List Task) (t : Task) (w : Nat),
      ts[i]? = some t → ts.length = i + 1 →
      parseTaskId t.id_tasks_book = some ⟨w, none⟩ →
      answerLoop text (fuel + 1) c i ts = .error .indexOutOfRange) ∧
    (∀ (d : List String) (t : Task) (w : Nat),
      parseTaskId t.id_tasks_book = some ⟨w, none⟩ →
      answerParser d [t] = .error .indexOutOfRange) := by
  have main : ∀ (text : String) (fuel c i : Nat) (ts : List Task) (t : Task) (w : Nat),
      ts[i]? = some t → ts.length = i + 1 →
      parseTaskId t.id_tasks_book = some ⟨w, none⟩ →
      answerLoop text (fuel + 1) c i ts = .error .indexOutOfRange := by
    intro text fuel c i ts t w h1 hlen hp
    rw [answerLoop]
    simp only [h1, hp]
    rw [List.getElem?_eq_none (by omega)]
  refine ⟨main, ?_⟩
  intro d t w hp
  unfold answerParser
  exact main (String.intercalate "\n" d) 0 0 0 [t] t w (by simp) rfl hp

/-- C9 (witness). -/
theorem C9_witness :
    answerLoop "x" 1 0 0 [mkTask "5"] = .error .indexOutOfRange ∧
    answerParser ["x"] [mkTask "5"] = .error .indexOutOfRange :=
  ⟨C9_bare_lookahead_fails.1 "x" 0 0 0 [mkTask "5"] (mkTask "5") 5 (by simp) rfl (by rfl),
   C9_bare_lookahead_fails.2 ["x"] (mkTask "5") 5 (by rfl)⟩

/-- C10: a task-pattern paragraph (or a supreme-chapter line that falls
through to the task/exclusive handling) reached while the chapter
collection is still empty makes the parser fail with the out-of-range
access on the empty collection (`chapters_data[-1]` / `tasks_data[-1]`)
rather than the documented classification error; and on every successful
parse, each task's `chapter_id` references one of the emitted chapters. -/
theorem C10_tasks_need_chapter :
    (∀ (data : List String) (fuel index : Nat) (st : PState) (text : String) (tm : Match),
      data[index]? = some text → st.chapters = [] → st.tasks = [] →
      supremeChapterMatch text = none → chapterMatch text = none →
      taskMatch text = some tm →
      parserLoop data (fuel + 1) index st = .error .indexOutOfRange) ∧
    (∀ (data : List String) (fuel index : Nat) (st : PState) (text : String)
       (sm : Match) (num : Nat),
      data[index]? = some text → st.chapters = [] →
      supremeChapterMatch text = some sm →
      digitsToNat? ((sm.g1.getD "").data.dropLast) = some num →
      ¬(num = st.current_chapter + 1 ∧ taskMatch text = none) →
      chapterMatch text = none →
      parserLoop data (fuel + 1) index st = .error .indexOutOfRange) ∧
    (∀ (data : List String) (ts : List Task) (chs : List Chapter) (aus : List Author),
      parser data = .ok (ts, chs, aus) → TasksLinked ts chs) := by
  refine ⟨?_, ?_, ?_⟩
  · intro data fuel index st text tm h1 hchs hts hsup hchap htm
    rw [parserLoop]
    simp only [h1, hsup, hchap, htm]
    by_cases hg4 : tm.g4.isSome
    · rw [if_pos hg4, hts]
      rfl
    · rw [if_neg hg4, hchs]
      rfl
  · intro data fuel index st text sm num h1 hchs hsm hnum hncond hchap
    rw [parserLoop]
    simp only [h1, hsm, hnum]
    rw [if_neg hncond]
    simp only [hchap]
    rw [hchs]
    rfl
  · intro data ts chs aus h
    unfold parser at h
    cases hP : parserLoop data data.length 0 initState with
    | error e =>
      rw [hP] at h
      exact Except.noConfusion h
    | ok st =>
      rw [hP] at h
      have h2 : (if st.answers = [] then Except.ok (st.tasks, st.chapters, authors_data)
          else match answerParser st.answers st.tasks with
            | Except.error e => Except.error e
            | Except.ok ts => Except.ok (ts, st.chapters, authors_data)) =
          Except.ok (ts, chs, aus) := h
      have hinv := parserLoop_inv data data.length 0 initState st StInv_init hP
      have hch := hinv.2.2.1
      have htsk := hinv.2.2.2
      have hcase : chs = st.chapters ∧
          ∀ t ∈ ts, ∃ t0 ∈ st.tasks, t0.paragraph = t.paragraph := by
        by_cases hA : st.answers = []
        · rw [if_pos hA] at h2
          injection h2 with h2
          injection h2 with h1 h2
          injection h2 with h2 h3
          exact ⟨h2.symm, fun t ht => ⟨t, by rw [h1]; exact ht, rfl⟩⟩
        · rw [if_neg hA] at h2
          cases hAP : answerParser st.answers st.tasks with
          | error e =>
            rw [hAP] at h2
            exact Except.noConfusion h2
          | ok ts2 =>
            rw [hAP] at h2
            injection h2 with h2
            injection h2 with h1 h2
            injection h2 with h2 h3
            rw [h1] at hAP
            refine ⟨h2.symm, ?_⟩
            unfold answerParser at hAP
            have hstrip := answerLoop_strip _ _ _ _ _ _ hAP
            intro t ht
            have hmm : stripAnswer t ∈ ts.map stripAnswer := List.mem_map_of_mem _ ht
            rw [hstrip] at hmm
            obtain ⟨t0, ht0, hst⟩ := List.mem_map.mp hmm
            refine ⟨t0, ht0, ?_⟩
            have := congrArg Task.paragraph hst
            simpa [stripAnswer] using this
      obtain ⟨hchs, hmem⟩ := hcase
      rw [← hchs] at hch htsk
      intro t ht
      obtain ⟨t0, ht0, hpar⟩ := hmem t ht
      obtain ⟨h1p, h2p⟩ := htsk t0 ht0
      have hlt : t0.paragraph - 1 < chs.length := by omega
      have hget : chs[t0.paragraph - 1]? = some chs[t0.paragraph - 1] :=
        List.getElem?_eq_getElem hlt
      have hid := (hch _ _ hget).1
      refine ⟨chs[t0.paragraph - 1], List.getElem?_mem hget, ?_⟩
      rw [hid]
      omega

/-- C10 (witness). -/
theorem C10_witness :
    parserLoop ["б) хвост."] 1 0 initState = .error .indexOutOfRange ∧
    parserLoop ["1147. Задача в начале."] 1 0 initState = .error .indexOutOfRange ∧
    TasksLinked
      [{ id_tasks_book := "1.1.1", task := "Условие задачи.", answer := none,
         classes := "5;6", paragraph := 2, topic_id := 1, level := 1 }]
      [{ id := 1, name := "1.Пункт", parent := 0 },
       { id := 2, name := "1.1.Название", parent := 1 }] :=
  ⟨C10_tasks_need_chapter.1 ["б) хвост."] 0 0 initState "б) хвост."
     ⟨none, none, none, some "б)", some "хвост."⟩ (by simp) rfl rfl rfl rfl (by rfl),
   C10_tasks_need_chapter.2.1 ["1147. Задача в начале."] 0 0 initState
     "1147. Задача в начале." ⟨some "1147.", some "Задача в начале.", none, none, none⟩
     1147 (by simp) rfl (by rfl) (by rfl) (by decide) rfl,
   C10_tasks_need_chapter.2.2
     ["1. Пункт", "1.1. Название", "1.1.1. Условие задачи.", "Ответы и советы"]
     [{ id_tasks_book := "1.1.1", task := "Условие задачи.", answer := none,
        classes := "5;6", paragraph := 2, topic_id := 1, level := 1 }]
     [{ id := 1, name := "1.Пункт", parent := 0 },
      { id := 2, name := "1.1.Название", parent := 1 }]
     authors_data (by rfl)⟩

/-- C4 (witness). -/
theorem C4_witness :
    ∃ g1, (⟨some "1147.", some "Текст", none, none, none⟩ : Match).g1 = some g1 ∧
      ({ id_tasks_book := "1147", task := "Текст", answer := none, classes := "5;6",
         paragraph := 3, topic_id := 1, level := 1 } : Task).id_tasks_book =
        pyDropLast g1 :=
  (C4_trailing_char_stripped ⟨some "1147.", some "Текст", none, none, none⟩ 3 none
    { id_tasks_book := "1147", task := "Текст", answer := none, classes := "5;6",
      paragraph := 3, topic_id := 1, level := 1 }).1 (by rfl)

end Pareser
